import Mathlib

/-!
Verification development for the chess rules engine of `app.js`
(class `ChessGame`): board store, FEN codec, move legality checker,
move applier, attack oracle, move enumerator and terminal detection.

Modelling conventions:
* JS strings are `List Char`; JS `null`/`undefined` cells are `none`.
* The 8×8 `this.board` array is `List (List (Option Char))`; reads through
  `boardGet` return `none` outside the 0..7 range (the JS `undefined`);
  writes through `boardSet` are no-ops out of range (such writes are never
  executed by the modelled flows).
* Numbers bound to ranks/files/deltas are `Int` (JS numbers used as small
  integers); the half-move clock, full-move number and move counters are
  `Nat` (they are never negative in the source).  JS 32-bit truncation
  (`x|0`) and `NaN` are not modelled; none of the modelled flows exercises
  them.
* The source's recursion
  `isLegalMoveWithState → isKingInCheck/isSquareAttacked →
   generateAllPseudoLegalMoves → isLegalMoveWithState`
  terminates only because the inner calls reject with reason `Not turn`
  (the attacker is never the side to move inside a legality check), which
  empties every nested move generation.  The embedding makes this explicit
  with a fuel parameter; fuel 2 is enough for every call chain the source
  can produce, and the `isLegalFuel_stable` lemma below shows the value is
  independent of the fuel from 1 upwards.
-/

/-- The two JS player strings `'white'` / `'black'`. -/
inductive Color where
  | white : Color
  | black : Color
deriving DecidableEq, Repr

/-- The color opposite to `c` (the JS `color === 'white' ? 'black' : 'white'`). -/
def Color.opposite : Color → Color
  | Color.white => Color.black
  | Color.black => Color.white

/-- A board cell: `null` or a piece character (JS single-character string). -/
abbrev Cell := Option Char

/-- A JS `{rank, file}` square object. -/
structure Coord where
  rank : Int
  file : Int
deriving DecidableEq, Repr

/-- The `this.castlingRights` object `{K, Q, k, q}`. -/
structure CastlingRights where
  K : Bool
  Q : Bool
  k : Bool
  q : Bool
deriving DecidableEq, Repr

/-- The Position fields of `ChessGame` that the rules engine reads and
writes: `board`, `currentPlayer`, `castlingRights`, `enPassantTarget`,
`halfmoveClock`, `fullmoveNumber`. -/
structure GameState where
  board : List (List Cell)
  currentPlayer : Color
  castlingRights : CastlingRights
  enPassantTarget : List Char
  halfmoveClock : Nat
  fullmoveNumber : Nat
deriving DecidableEq, Repr

/-- The six white piece characters (the JS character class `[PRNBQK]`). -/
def whitePieceChars : List Char := ['P', 'R', 'N', 'B', 'Q', 'K']

/-- The six black piece characters (the JS character class `[prnbqk]`). -/
def blackPieceChars : List Char := ['p', 'r', 'n', 'b', 'q', 'k']

/-- All twelve piece characters. -/
def pieceChars : List Char := whitePieceChars ++ blackPieceChars

/-- `/[PRNBQK]/.test(piece)` on a one-character string. -/
def isWhitePiece (c : Char) : Bool := c ∈ whitePieceChars

/-- `/[prnbqk]/.test(piece)` on a one-character string. -/
def isBlackPiece (c : Char) : Bool := c ∈ blackPieceChars

/-- `isPieceOwnedByPlayer(piece, player)` from app.js. -/
def isPieceOwnedByPlayer (piece : Char) (player : Color) : Bool :=
  match player with
  | Color.white => isWhitePiece piece
  | Color.black => isBlackPiece piece

/-- `isSameColor(piece1, piece2)` from app.js. -/
def isSameColor (p1 p2 : Char) : Bool :=
  (isWhitePiece p1 && isWhitePiece p2) || (isBlackPiece p1 && isBlackPiece p2)

/-- The color of a piece character, as computed by the source's
`/[PRNBQK]/.test(piece) ? 'white' : 'black'`. -/
def pieceColor (c : Char) : Color :=
  if isWhitePiece c then Color.white else Color.black

/-- JS `/\d/` on a single character. -/
def isDigitChar (c : Char) : Bool := '0' ≤ c && c ≤ '9'

/-- `parseInt(char, 10)` on a single digit character. -/
def digitVal (c : Char) : Nat := c.toNat - 48

/-- The decimal digit character of `n < 10`. -/
def digitChar (n : Nat) : Char := Char.ofNat (48 + n)

/-- Structural worker for `natDigits`; the fuel only bounds the number
of divisions by 10 and any fuel above the value itself is enough
(`natDigitsGo_fuel`). -/
def natDigitsGo : Nat → Nat → List Char
  | 0, _ => []
  | fuel + 1, n =>
      if n < 10 then [digitChar n]
      else natDigitsGo fuel (n / 10) ++ [digitChar (n % 10)]

/-- Decimal rendering of a natural number, as JS string interpolation
`${n}` produces for a non-negative integer. -/
def natDigits (n : Nat) : List Char := natDigitsGo (n + 1) n

/-- Any fuel strictly above the value computes the same digit string. -/
theorem natDigitsGo_fuel (f1 : Nat) : ∀ (f2 n : Nat), n < f1 → n < f2 →
    natDigitsGo f1 n = natDigitsGo f2 n := by
  induction f1 with
  | zero => intro f2 n h1 _; omega
  | succ f1 ih =>
      intro f2 n h1 h2
      cases f2 with
      | zero => omega
      | succ f2 =>
          simp only [natDigitsGo]
          by_cases h : n < 10
          · simp [h]
          · simp only [if_neg h]
            have hd : n / 10 < n := Nat.div_lt_self (by omega) (by omega)
            rw [ih f2 (n / 10) (by omega) (by omega)]

/-- The defining recursion of `natDigits` on values of ten or more. -/
theorem natDigits_ge (n : Nat) (h : ¬ n < 10) :
    natDigits n = natDigits (n / 10) ++ [digitChar (n % 10)] := by
  have hd : n / 10 < n := Nat.div_lt_self (by omega) (by omega)
  show natDigitsGo (n + 1) n = natDigitsGo (n / 10 + 1) (n / 10) ++ [digitChar (n % 10)]
  conv_lhs => rw [natDigitsGo]
  rw [if_neg h, natDigitsGo_fuel n (n / 10 + 1) (n / 10) (by omega) (by omega)]

/-- One step of `parseInt(s, 10)`: consume decimal digits from the left,
stopping at the first non-digit. -/
def parseIntGo : List Char → Nat → Nat
  | [], acc => acc
  | c :: cs, acc =>
      if isDigitChar c then parseIntGo cs (acc * 10 + digitVal c) else acc

/-- `parseInt(s, 10)` on strings that start with a digit (the only
strings the modelled flows feed it); a digit-free string yields 0
(the source never stores the JS `NaN` that would arise there). -/
def parseIntChars (s : List Char) : Nat := parseIntGo s 0

/-- JS `String.prototype.split(sep)` for a one-character separator:
empty pieces are kept, the empty string splits to `[""]`. -/
def splitChar (sep : Char) : List Char → List (List Char)
  | [] => [[]]
  | c :: cs =>
      if c = sep then [] :: splitChar sep cs
      else
        match splitChar sep cs with
        | [] => [[c]]
        | h :: t => (c :: h) :: t

/-- JS `Array.prototype.join(sep)` for a one-character separator. -/
def joinChar (sep : Char) : List (List Char) → List Char
  | [] => []
  | [x] => x
  | x :: xs => x ++ sep :: joinChar sep xs

/-- `algebraicToCoords(algebraic)` from app.js:
file = `charCodeAt(0) - 97`, rank = `8 - parseInt(algebraic[1])`. -/
def algebraicToCoords (a : List Char) : Coord :=
  { file := ((a.getD 0 ' ').toNat : Int) - 97
    rank := 8 - (((a.getD 1 ' ').toNat : Int) - 48) }

/-- `coordsToAlgebraic(coords)` from app.js:
`String.fromCharCode(97 + file)` followed by the decimal of `8 - rank`. -/
def coordsToAlgebraic (c : Coord) : List Char :=
  Char.ofNat (97 + c.file).toNat :: natDigits ((8 - c.rank).toNat)

/-- `this.board[r][f]` with JS semantics for the modelled flows:
out-of-range reads give `none`. -/
def boardGet (b : List (List Cell)) (r f : Int) : Cell :=
  if 0 ≤ r ∧ r < 8 ∧ 0 ≤ f ∧ f < 8 then
    (b.getD r.toNat []).getD f.toNat none
  else none

/-- `this.board[r][f] = v`; out-of-range writes are no-ops (never
executed by the modelled flows). -/
def boardSet (b : List (List Cell)) (r f : Int) (v : Cell) : List (List Cell) :=
  if 0 ≤ r ∧ r < 8 ∧ 0 ≤ f ∧ f < 8 then
    b.set r.toNat ((b.getD r.toNat []).set f.toNat v)
  else b

/-- `createEmptyBoard()` from app.js: an 8×8 grid of `null`. -/
def createEmptyBoard : List (List Cell) :=
  List.replicate 8 (List.replicate 8 (none : Cell))

/-- The per-rank loop body of `parseFENPlacement`: walk the row text,
a digit advances the file pointer, a piece character is written at the
current file. -/
def decodeRowGo : List Char → Nat → List Cell → List Cell
  | [], _, row => row
  | c :: cs, file, row =>
      if isDigitChar c then decodeRowGo cs (file + digitVal c) row
      else decodeRowGo cs (file + 1) (row.set file (some c))

/-- `parseFENPlacement(placement)` from app.js. -/
def parseFENPlacement (placement : List Char) : List (List Cell) :=
  let rows := splitChar '/' placement
  (List.range 8).map fun rank =>
    decodeRowGo (rows.getD rank []) 0 (List.replicate 8 (none : Cell))

/-- The fold inside `boardToPlacement`: pending count of empty cells,
flushed as a decimal digit before each piece and at the end of the row. -/
def encodeRowGo : List Cell → Nat → List Char
  | [], emptyCount => if emptyCount > 0 then natDigits emptyCount else []
  | none :: rest, emptyCount => encodeRowGo rest (emptyCount + 1)
  | some c :: rest, emptyCount =>
      (if emptyCount > 0 then natDigits emptyCount else []) ++ c :: encodeRowGo rest 0

/-- The FEN text of one board row. -/
def encodeRow (row : List Cell) : List Char := encodeRowGo row 0

/-- `boardToPlacement()` from app.js: encode each row, `join('/')`. -/
def boardToPlacement (b : List (List Cell)) : List Char :=
  joinChar '/' (b.map encodeRow)

/-- The castling part of `syncFENFromState`:
`K?Q?k?q?` in fixed order, or `-` when empty. -/
def castlingString (cr : CastlingRights) : List Char :=
  let s := (if cr.K then ['K'] else []) ++ (if cr.Q then ['Q'] else [])
        ++ (if cr.k then ['k'] else []) ++ (if cr.q then ['q'] else [])
  if s = [] then ['-'] else s

/-- `syncFENFromState()` from app.js, restricted to the FEN text it
produces (the UI output field is external).  `Math.max(0, half|0)` and
`Math.max(1, full|0)` become `max` on `Nat`. -/
def syncFENFromState (s : GameState) : List Char :=
  let placement := boardToPlacement s.board
  let side := if s.currentPlayer = Color.white then ['w'] else ['b']
  let c := castlingString s.castlingRights
  let ep := if s.enPassantTarget = [] then ['-'] else s.enPassantTarget
  let half := natDigits (max 0 s.halfmoveClock)
  let full := natDigits (max 1 s.fullmoveNumber)
  placement ++ ' ' :: side ++ ' ' :: c ++ ' ' :: ep ++ ' ' :: half ++ ' ' :: full

/-- `setPositionFromFEN(fen)` from app.js, restricted to the Position
fields (UI rendering and the retained `currentFEN` text are external). -/
def setPositionFromFEN (fen : List Char) : GameState :=
  let parts := splitChar ' ' fen
  let placement := parts.getD 0 []
  let side := parts.getD 1 []
  let castling := parts.getD 2 []
  let ep := parts.getD 3 []
  let half := parts.getD 4 []
  let full := parts.getD 5 []
  { board := parseFENPlacement placement
    currentPlayer := if side = ['w'] then Color.white else Color.black
    castlingRights :=
      { K := 'K' ∈ castling
        Q := 'Q' ∈ castling
        k := 'k' ∈ castling
        q := 'q' ∈ castling }
    enPassantTarget := if ep = [] then ['-'] else ep
    halfmoveClock := parseIntChars (if half = [] then ['0'] else half)
    fullmoveNumber := parseIntChars (if full = [] then ['1'] else full) }

/-- The row loop of `validateFEN`: accumulate the run-length-expanded
square count, failing on a character that is neither a digit (`/\d/`)
nor one of the twelve piece letters. -/
def rowCountGo : List Char → Nat → Option Nat
  | [], count => some count
  | c :: cs, count =>
      if isDigitChar c then rowCountGo cs (count + digitVal c)
      else if c ∈ pieceChars then rowCountGo cs (count + 1)
      else none

/-- Matching of the JS regex `^(-|K?Q?k?q?)$`: strip one optional
occurrence of the given character from the front. -/
def stripOpt (c : Char) : List Char → List Char
  | [] => []
  | x :: xs => if x = c then xs else x :: xs

/-- `^(-|K?Q?k?q?)$` on the castling field. -/
def castleRegexOK (s : List Char) : Bool :=
  s = ['-'] || stripOpt 'q' (stripOpt 'k' (stripOpt 'Q' (stripOpt 'K' s))) = []

/-- `[a-h]` on a single character. -/
def isFileChar (c : Char) : Bool := 'a' ≤ c && c ≤ 'h'

/-- The union of the two JS regexes tested on the en-passant field:
`^(-|[a-h][36])$` or `^(-|[a-h])$`. -/
def epRegexOK (s : List Char) : Bool :=
  s = ['-'] ||
    (match s with
     | [f, r] => isFileChar f && (r = '3' || r = '6')
     | [f] => isFileChar f
     | _ => false)

/-- `^\d+$`. -/
def allDigits (s : List Char) : Bool := s ≠ [] && s.all isDigitChar

/-- `validateFEN(fen)` from app.js. -/
def validateFEN (fen : List Char) : Bool :=
  if fen = [] then false
  else
    let parts := splitChar ' ' fen
    if parts.length < 4 then false
    else
      let rows := splitChar '/' (parts.getD 0 [])
      if rows.length ≠ 8 then false
      else if ¬ (rows.all fun row => rowCountGo row 0 = some 8) then false
      else if ¬ (parts.getD 1 [] = ['w'] ∨ parts.getD 1 [] = ['b']) then false
      else if ¬ castleRegexOK (parts.getD 2 []) then false
      else if ¬ epRegexOK (parts.getD 3 []) then false
      else if parts.length > 4 ∧ parts.getD 4 [] ≠ [] ∧ ¬ allDigits (parts.getD 4 []) then false
      else if parts.length > 5 ∧ parts.getD 5 [] ≠ [] ∧ ¬ allDigits (parts.getD 5 []) then false
      else true

/-- The argument record of `applyMoveToState` (the JS move object). -/
structure MoveRec where
  fromSq : Coord
  toSq : Coord
  piece : Cell
  capturedPiece : Cell
  promotion : Cell
  isEnPassant : Bool
  isCastling : Bool
deriving DecidableEq, Repr

/-- The `updateCR` closure inside `applyMoveToState`. -/
def updateCR (cr : CastlingRights) (p : Cell) (r f : Int) : CastlingRights :=
  match p with
  | none => cr
  | some p =>
      let cr := if p = 'K' then { cr with K := false, Q := false } else cr
      let cr := if p = 'k' then { cr with k := false, q := false } else cr
      let cr := if p = 'R' ∧ r = 7 ∧ f = 0 then { cr with Q := false } else cr
      let cr := if p = 'R' ∧ r = 7 ∧ f = 7 then { cr with K := false } else cr
      let cr := if p = 'r' ∧ r = 0 ∧ f = 0 then { cr with q := false } else cr
      let cr := if p = 'r' ∧ r = 0 ∧ f = 7 then { cr with k := false } else cr
      cr

/-- `applyMoveToState(move, options)` from app.js, restricted to the
Position fields.  The `simulate` option only suppresses the external
`syncFENFromState` call and score/log notifications; the Position
mutation is identical in both modes, so it is not a parameter here. -/
def applyMoveToState (s : GameState) (mv : MoveRec) : GameState :=
  match mv.piece with
  | none => s
  | some piece =>
      let color := pieceColor piece
      let hm : Nat :=
        if piece.toLower = 'p' ∨ mv.capturedPiece ≠ none ∨ mv.isEnPassant then 0
        else s.halfmoveClock + 1
      let b := s.board
      let b :=
        if mv.isEnPassant then
          let dir : Int := if color = Color.white then 1 else -1
          boardSet b (mv.toSq.rank + dir) mv.toSq.file none
        else b
      let b :=
        if mv.isCastling then
          let kingSide := mv.toSq.file = 6
          let rookFromF : Int := if kingSide then 7 else 0
          let rookToF : Int := if kingSide then 5 else 3
          let rook := boardGet b mv.fromSq.rank rookFromF
          boardSet (boardSet b mv.fromSq.rank rookFromF none) mv.fromSq.rank rookToF rook
        else b
      let b := boardSet b mv.toSq.rank mv.toSq.file (some piece)
      let b := boardSet b mv.fromSq.rank mv.fromSq.file none
      let b :=
        match mv.promotion with
        | some pr => boardSet b mv.toSq.rank mv.toSq.file (some pr)
        | none => b
      let cr := updateCR s.castlingRights (some piece) mv.fromSq.rank mv.fromSq.file
      let cr := updateCR cr mv.capturedPiece mv.toSq.rank mv.toSq.file
      let ep : List Char :=
        if piece.toLower = 'p' ∧ (mv.toSq.rank - mv.fromSq.rank).natAbs = 2 then
          coordsToAlgebraic { rank := (mv.toSq.rank + mv.fromSq.rank) / 2, file := mv.fromSq.file }
        else ['-']
      { s with board := b, halfmoveClock := hm, castlingRights := cr, enPassantTarget := ep }

/-- `snapshotState()` from app.js: a deep value copy of the Position. -/
def snapshotState (s : GameState) : GameState :=
  { board := s.board.map fun r => r
    currentPlayer := s.currentPlayer
    castlingRights := s.castlingRights
    enPassantTarget := s.enPassantTarget
    halfmoveClock := s.halfmoveClock
    fullmoveNumber := s.fullmoveNumber }

/-- `restoreSnapshot(s)` from app.js: the Position after restoring is the
snapshot's value copy. -/
def restoreSnapshot (snap : GameState) : GameState :=
  { board := snap.board.map fun r => r
    currentPlayer := snap.currentPlayer
    castlingRights := snap.castlingRights
    enPassantTarget := snap.enPassantTarget
    halfmoveClock := snap.halfmoveClock
    fullmoveNumber := snap.fullmoveNumber }

theorem restore_snapshot_id (s : GameState) : restoreSnapshot (snapshotState s) = s := by
  simp [restoreSnapshot, snapshotState]

/-- The result object of `isLegalMoveWithState`:
`{ok, reason?}` or `{ok, isEnPassant, isCastling, promotion}`. -/
structure LegalRes where
  ok : Bool
  reason : String := ""
  isEnPassant : Bool := false
  isCastling : Bool := false
  promotion : Cell := none
deriving DecidableEq, Repr

/-- The `pathClear(drStep, dfStep, steps)` closure inside
`isLegalMoveWithState`: the squares strictly between origin and
destination (loop indices 1 .. steps-1) must be empty. -/
def pathClear (b : List (List Cell)) (fr : Coord) (drStep dfStep : Int) (steps : Nat) : Bool :=
  (List.range' 1 (steps - 1)).all fun i =>
    boardGet b (fr.rank + drStep * (i : Int)) (fr.file + dfStep * (i : Int)) = none

/-- The pawn branch of `isLegalMoveWithState` (lines 736-761 of app.js),
returning the `isEnPassant` / `isCastling` / `promotion` triple. -/
def pawnKindCheck (s : GameState) (fr tc : Coord) (color : Color)
    (targetPiece : Cell) (dr df : Int) (promotionChar : Option Char) :
    Except String (Bool × Bool × Cell) :=
  let dir : Int := if color = Color.white then -1 else 1
  let startRank : Int := if color = Color.white then 6 else 1
  let step1 : Except String Bool :=
    if df = 0 then
      if dr = dir ∧ targetPiece = none then Except.ok false
      else if fr.rank = startRank ∧ dr = 2 * dir ∧ targetPiece = none then
        if boardGet s.board (fr.rank + dir) fr.file ≠ none then Except.error "Blocked"
        else Except.ok false
      else Except.error "Bad pawn move"
    else if df.natAbs = 1 ∧ dr = dir then
      if targetPiece ≠ none then Except.ok false
      else if s.enPassantTarget ≠ ['-'] then
        let epCoords := algebraicToCoords s.enPassantTarget
        if epCoords.rank = tc.rank ∧ epCoords.file = tc.file then Except.ok true
        else Except.error "No EP"
      else Except.error "No EP"
    else Except.error "Bad pawn vector"
  match step1 with
  | Except.error r => Except.error r
  | Except.ok isEnPassant =>
      let promoRank : Int := if color = Color.white then 0 else 7
      let promotion : Cell :=
        if tc.rank = promoRank then
          let pch := promotionChar.getD 'q'
          let promo := if color = Color.white then pch.toUpper else pch.toLower
          if promo ∈ ['q', 'r', 'b', 'n', 'Q', 'R', 'B', 'N'] then some promo
          else some (if color = Color.white then 'Q' else 'q')
        else none
      Except.ok (isEnPassant, false, promotion)

/-- The king branch of `isLegalMoveWithState` (lines 780-802 of app.js),
parameterised by the attack query `this.isSquareAttacked`.  Since the
origin file is forced to 4 before the rook-path loop runs, the loop over
`from.file + step .. rookFile` (exclusive) visits files 5,6 on the king
side and 3,2,1 on the queen side. -/
def kingKindCheck (att : GameState → Coord → Color → Bool) (s : GameState)
    (fr tc : Coord) (color : Color) (dr df : Int) :
    Except String (Bool × Bool × Cell) :=
  if dr = 0 ∧ df.natAbs = 2 then
    let sideKing : Coord := if color = Color.white then ⟨7, 4⟩ else ⟨0, 4⟩
    if fr.rank ≠ sideKing.rank ∨ fr.file ≠ sideKing.file then Except.error "King not on start"
    else
      let kingSide := tc.file = 6
      let queenSide := tc.file = 2
      if ¬ kingSide ∧ ¬ queenSide then Except.error "Bad castle target"
      else
        let rights := s.castlingRights
        let canCastle :=
          if color = Color.white then (if kingSide then rights.K else rights.Q)
          else (if kingSide then rights.k else rights.q)
        if ¬ canCastle then Except.error "No castling rights"
        else
          let step : Int := if kingSide then 1 else -1
          let betweenFiles : List Int := if kingSide then [5, 6] else [3, 2, 1]
          if ¬ (betweenFiles.all fun f => boardGet s.board fr.rank f = none) then
            Except.error "Path blocked"
          else if att s fr color then Except.error "King in check"
          else
            let mid : Coord := ⟨fr.rank, fr.file + step⟩
            if att s mid color then Except.error "Through check"
            else if att s tc color then Except.error "Into check"
            else Except.ok (false, true, none)
  else if dr.natAbs > 1 ∨ df.natAbs > 1 then Except.error "Bad king move"
  else Except.ok (false, false, none)

/-- Lines 708-803 of `isLegalMoveWithState`: the early rejections and the
kind-specific dispatch, before the simulate-then-verify step.  This part
of the source never mutates the Position. -/
def kindCheckCore (att : GameState → Coord → Color → Bool)
    (s : GameState) (fr tc : Coord) (piece : Cell) (promotionChar : Option Char) :
    Except String (Bool × Bool × Cell) :=
  match piece with
  | none => Except.error "No piece"
  | some piece =>
      if fr.rank = tc.rank ∧ fr.file = tc.file then Except.error "Same square"
      else
        let targetPiece := boardGet s.board tc.rank tc.file
        if (match targetPiece with | some t => isSameColor piece t | none => false) then
          Except.error "Own piece on target"
        else
          let color := pieceColor piece
          if color ≠ s.currentPlayer then Except.error "Not turn"
          else
            let dr := tc.rank - fr.rank
            let df := tc.file - fr.file
            let pieceLower := piece.toLower
            if pieceLower = 'p' then
              pawnKindCheck s fr tc color targetPiece dr df promotionChar
            else if pieceLower = 'n' then
              if (dr.natAbs = 2 ∧ df.natAbs = 1) ∨ (dr.natAbs = 1 ∧ df.natAbs = 2) then
                Except.ok (false, false, none)
              else Except.error "Bad knight move"
            else if pieceLower = 'b' then
              if dr.natAbs ≠ df.natAbs then Except.error "Bad bishop move"
              else if ¬ pathClear s.board fr dr.sign df.sign dr.natAbs then Except.error "Blocked"
              else Except.ok (false, false, none)
            else if pieceLower = 'r' then
              if ¬ (dr = 0 ∨ df = 0) then Except.error "Bad rook move"
              else
                let steps := dr.natAbs + df.natAbs
                let drs := if dr = 0 then 0 else dr.sign
                let dfs := if df = 0 then 0 else df.sign
                if ¬ pathClear s.board fr drs dfs steps then Except.error "Blocked"
                else Except.ok (false, false, none)
            else if pieceLower = 'q' then
              if ¬ (dr.natAbs = df.natAbs ∨ dr = 0 ∨ df = 0) then Except.error "Bad queen move"
              else
                let steps := max dr.natAbs df.natAbs
                let drs := if dr = 0 then 0 else dr.sign
                let dfs := if df = 0 then 0 else df.sign
                if ¬ pathClear s.board fr drs dfs steps then Except.error "Blocked"
                else Except.ok (false, false, none)
            else if pieceLower = 'k' then
              kingKindCheck att s fr tc color dr df
            else Except.ok (false, false, none)

/-- One entry of the list built by `generateAllPseudoLegalMoves`. -/
structure GenMove where
  fromSq : Coord
  toSq : Coord
  piece : Char
  capturedPiece : Cell
  meta : LegalRes
deriving DecidableEq, Repr

/-- The `opts` object of `generateAllPseudoLegalMoves`; `none` models an
absent (`undefined`) `includeKingSafety` property. -/
structure GenOpts where
  includeKingSafety : Option Bool := none
deriving DecidableEq, Repr

/-- `generateAllPseudoLegalMoves(player, opts)` from app.js,
parameterised by the legality checker it invokes.  As in the source,
`includeKingSafety` is computed from `opts` (`!== false`) and then never
consulted by the enumeration loop. -/
def genPseudoCore (leg : GameState → Coord → Coord → Cell → Option Char → LegalRes × GameState)
    (s : GameState) (player : Color) (opts : GenOpts) : List GenMove :=
  let _includeKingSafety := opts.includeKingSafety ≠ some false
  (List.range 8).flatMap fun rank =>
    (List.range 8).flatMap fun file =>
      match boardGet s.board (rank : Int) (file : Int) with
      | none => []
      | some piece =>
          if isPieceOwnedByPlayer piece player then
            (List.range 8).flatMap fun toRank =>
              (List.range 8).flatMap fun toFile =>
                let fr : Coord := ⟨(rank : Int), (file : Int)⟩
                let tc : Coord := ⟨(toRank : Int), (toFile : Int)⟩
                let res := (leg s fr tc (some piece) none).1
                if res.ok then
                  [{ fromSq := fr, toSq := tc, piece := piece,
                     capturedPiece := boardGet s.board (toRank : Int) (toFile : Int),
                     meta := res }]
                else []
          else []

/-- `isSquareAttacked(square, color)` from app.js, parameterised by the
legality checker the generation loop invokes. -/
def isSquareAttackedCore
    (leg : GameState → Coord → Coord → Cell → Option Char → LegalRes × GameState)
    (s : GameState) (square : Coord) (color : Color) : Bool :=
  let attacker := color.opposite
  let attacks := genPseudoCore leg s attacker { includeKingSafety := some false }
  attacks.any fun m => m.toSq.rank = square.rank && m.toSq.file = square.file

/-- `isKingInCheck(color)` from app.js: scan the board for the king
(the last occurrence in rank-then-file order wins, as in the source's
loop), then query the attack oracle. -/
def isKingInCheckCore
    (leg : GameState → Coord → Coord → Cell → Option Char → LegalRes × GameState)
    (s : GameState) (color : Color) : Bool :=
  let kingPiece := if color = Color.white then 'K' else 'k'
  let kingSq : Option Coord :=
    (List.range 8).foldl
      (fun acc r =>
        (List.range 8).foldl
          (fun acc f =>
            if boardGet s.board (r : Int) (f : Int) = some kingPiece then
              some ⟨(r : Int), (f : Int)⟩
            else acc)
          acc)
      none
  match kingSq with
  | none => false
  | some sq => isSquareAttackedCore leg s sq color

/-- The body of one `isLegalMoveWithState(from, to, piece, promotionChar)`
call, parameterised by the attack and check oracles it consults
(`this.isSquareAttacked` / `this.isKingInCheck` in the source).  Returns
the result object together with the Position after the call: the
simulate-then-verify step takes a snapshot, applies the move, queries
the check oracle for the mover and restores the snapshot. -/
def isLegalStep (att : GameState → Coord → Color → Bool)
    (kic : GameState → Color → Bool) (s : GameState) (fr tc : Coord)
    (piece : Cell) (promotionChar : Option Char) : LegalRes × GameState :=
  match kindCheckCore att s fr tc piece promotionChar with
  | Except.error r => ({ ok := false, reason := r }, s)
  | Except.ok (isEnPassant, isCastling, promotion) =>
      let color := pieceColor (piece.getD ' ')
      let targetPiece := boardGet s.board tc.rank tc.file
      let snapshot := snapshotState s
      let s' := applyMoveToState s
        { fromSq := fr, toSq := tc, piece := piece, capturedPiece := targetPiece,
          promotion := promotion, isEnPassant := isEnPassant, isCastling := isCastling }
      let stillInCheck := kic s' color
      let sRestored := restoreSnapshot snapshot
      if stillInCheck then ({ ok := false, reason := "Leaves king in check" }, sRestored)
      else ({ ok := true, isEnPassant := isEnPassant, isCastling := isCastling,
              promotion := promotion }, sRestored)

/-- `isLegalMoveWithState` with a fuel bound on the source's unbounded
mutual recursion (see the header note): each call consults attack and
check oracles built on the checker at the next lower fuel. -/
def isLegalFuel : Nat → GameState → Coord → Coord → Cell → Option Char → LegalRes × GameState
  | 0, s, _, _, _, _ => ({ ok := false, reason := "fuel" }, s)
  | n + 1, s, fr, tc, piece, promotionChar =>
      isLegalStep (isSquareAttackedCore (isLegalFuel n)) (isKingInCheckCore (isLegalFuel n))
        s fr tc piece promotionChar

/-- `isLegalMoveWithState` at the stable fuel (see `isLegalFuel_stable`). -/
def isLegalMoveWithState (s : GameState) (fr tc : Coord) (piece : Cell)
    (promotionChar : Option Char) : LegalRes × GameState :=
  isLegalFuel 2 s fr tc piece promotionChar

/-- `isSquareAttacked(square, color)` at the stable fuel. -/
def isSquareAttacked (s : GameState) (square : Coord) (color : Color) : Bool :=
  isSquareAttackedCore (isLegalFuel 2) s square color

/-- `isKingInCheck(color)` at the stable fuel. -/
def isKingInCheck (s : GameState) (color : Color) : Bool :=
  isKingInCheckCore (isLegalFuel 2) s color

/-- `generateAllPseudoLegalMoves(player, opts)` at the stable fuel. -/
def generateAllPseudoLegalMoves (s : GameState) (player : Color) (opts : GenOpts) : List GenMove :=
  genPseudoCore (isLegalFuel 2) s player opts

/-- `generateAllLegalMoves(player)` from app.js: delegates to
`generateAllPseudoLegalMoves(player, { includeKingSafety: true })`. -/
def generateAllLegalMoves (s : GameState) (player : Color) : List GenMove :=
  generateAllPseudoLegalMoves s player { includeKingSafety := some true }

/-- The match-level fields of `ChessGame` read and written by the
turn/termination flow (scores, move history, rendering and phase
navigation are external). -/
structure MatchState where
  core : GameState
  moveCountWhite : Nat
  moveCountBlack : Nat
  maxMoves : Nat
  gameActive : Bool
  gameResult : Option String
deriving DecidableEq, Repr

/-- `endGame(reason)` from app.js, restricted to the match fields
(winner display, final-score snapshot and the phase change are
external). -/
def endGame (m : MatchState) (reason : String) : MatchState :=
  { m with gameActive := false, gameResult := some reason }

/-- `checkGameEndEarly()` from app.js: queries `generateAllLegalMoves`
and `isKingInCheck` for `this.currentPlayer` at call time and ends the
game when that side has no legal moves. -/
def checkGameEndEarly (m : MatchState) : Bool × MatchState :=
  let playerToMove := m.core.currentPlayer
  let hasMoves := (generateAllLegalMoves m.core playerToMove).length > 0
  let inCheck := isKingInCheck m.core playerToMove
  if ¬ hasMoves then (true, endGame m (if inCheck then "Checkmate" else "Stalemate"))
  else (false, m)

/-- `checkGameEnd()` from app.js: the move-limit check. -/
def checkGameEnd (m : MatchState) : Bool × MatchState :=
  if m.moveCountWhite ≥ m.maxMoves ∧ m.moveCountBlack ≥ m.maxMoves then
    (true, endGame m "Move limit reached")
  else (false, m)

/-- `endPlayerTurn()` from app.js (rendering, the FEN output field and
the AI-move timeout are external; `endAITurn` is identical on these
fields): increment the mover's counter, run `checkGameEndEarly` while
`this.currentPlayer` is still the mover, then switch sides, bump the
full-move number after Black, and run the move-limit check. -/
def endPlayerTurn (m : MatchState) : MatchState :=
  let m :=
    if m.core.currentPlayer = Color.white then { m with moveCountWhite := m.moveCountWhite + 1 }
    else { m with moveCountBlack := m.moveCountBlack + 1 }
  let earlyRes := checkGameEndEarly m
  if earlyRes.1 then earlyRes.2
  else
    let m := earlyRes.2
    let newPlayer := if m.core.currentPlayer = Color.white then Color.black else Color.white
    let m := { m with core := { m.core with currentPlayer := newPlayer } }
    let m :=
      if m.core.currentPlayer = Color.white then
        { m with core := { m.core with fullmoveNumber := m.core.fullmoveNumber + 1 } }
      else m
    (checkGameEnd m).2

/-- Reference predicate written from the spec's words (§4.2): the piece
standing on `fr` can reach `tc` by the pseudo-legal movement rules of its
kind — movement pattern, path-blocking and capture rules only, with no
turn restriction and no king-safety filtering.  Used to compare the
source's attack oracle and accepted moves against the specification. -/
def specPseudoReach (s : GameState) (fr tc : Coord) : Bool :=
  match boardGet s.board fr.rank fr.file with
  | none => false
  | some p =>
      let dr := tc.rank - fr.rank
      let df := tc.file - fr.file
      let target := boardGet s.board tc.rank tc.file
      let color := pieceColor p
      let ownTarget : Bool := match target with | some t => isSameColor p t | none => false
      if fr = tc ∨ ownTarget = true then false
      else if p.toLower = 'p' then
        let dir : Int := if color = Color.white then -1 else 1
        let startRank : Int := if color = Color.white then 6 else 1
        decide ((df = 0 ∧ dr = dir ∧ target = none) ∨
          (df = 0 ∧ dr = 2 * dir ∧ fr.rank = startRank ∧ target = none ∧
            boardGet s.board (fr.rank + dir) fr.file = none) ∨
          (df.natAbs = 1 ∧ dr = dir ∧
            (target ≠ none ∨ (s.enPassantTarget ≠ ['-'] ∧ algebraicToCoords s.enPassantTarget = tc))))
      else if p.toLower = 'n' then
        decide ((dr.natAbs = 2 ∧ df.natAbs = 1) ∨ (dr.natAbs = 1 ∧ df.natAbs = 2))
      else if p.toLower = 'b' then
        decide (dr.natAbs = df.natAbs) && pathClear s.board fr dr.sign df.sign dr.natAbs
      else if p.toLower = 'r' then
        decide (dr = 0 ∨ df = 0) &&
          pathClear s.board fr (if dr = 0 then 0 else dr.sign) (if df = 0 then 0 else df.sign)
            (dr.natAbs + df.natAbs)
      else if p.toLower = 'q' then
        decide (dr.natAbs = df.natAbs ∨ dr = 0 ∨ df = 0) &&
          pathClear s.board fr (if dr = 0 then 0 else dr.sign) (if df = 0 then 0 else df.sign)
            (max dr.natAbs df.natAbs)
      else if p.toLower = 'k' then
        decide (dr.natAbs ≤ 1 ∧ df.natAbs ≤ 1)
      else false

/-- The standard opening position, decoded from the start FEN. -/
def startFEN : List Char := "rnbqkbnr/pppppppp/8/8/8/8/PPPPPPPP/RNBQKBNR w KQkq - 0 1".data

/-- The decoded standard opening position. -/
def startState : GameState := setPositionFromFEN startFEN

/-- White king a1, black rook b8, black king h8, White to move. -/
def c1State : GameState := setPositionFromFEN "1r5k/8/8/8/8/8/8/K7 w - - 0 1".data

/-- The king move a1-b1 in `c1State`, onto the b-file held by the rook. -/
def c1Move : MoveRec :=
  { fromSq := ⟨7, 0⟩, toSq := ⟨7, 1⟩, piece := some 'K', capturedPiece := none,
    promotion := none, isEnPassant := false, isCastling := false }

/-- Black king a8, black rook e8, White king e1, White rook h1,
White holds the kingside castling right, White to move: the e-file rook
holds e1 in check. -/
def c3State : GameState := setPositionFromFEN "k3r3/8/8/8/8/8/8/4K2R w K - 0 1".data

/-- White king a8, pawns b8 and a7, pawn on b6 about to step to b7,
black king e5, White to move. -/
def c4State : GameState := setPositionFromFEN "KP6/P7/1P6/4k3/8/8/8/8 w - - 0 1".data

/-- The pawn step b6-b7 in `c4State`. -/
def c4Move : MoveRec :=
  { fromSq := ⟨2, 1⟩, toSq := ⟨1, 1⟩, piece := some 'P', capturedPiece := none,
    promotion := none, isEnPassant := false, isCastling := false }

/-- `c4State` after the pawn step b6-b7: every White piece is now stuck,
while the black king still has moves. -/
def c4After : GameState := applyMoveToState c4State c4Move

/-- The match wrapper around `c4After`, as it stands when `endPlayerTurn`
runs right after White's move. -/
def c4Match : MatchState :=
  { core := c4After, moveCountWhite := 0, moveCountBlack := 0, maxMoves := 6,
    gameActive := true, gameResult := none }

/-- White pawn e5, black pawn d5 that just double-stepped (en-passant
target d6), kings e1/e8, White to move: spec scenario 4. -/
def c8State : GameState := setPositionFromFEN "4k3/8/8/3pP3/8/8/8/4K3 w - d6 0 1".data

/-- The en-passant capture e5xd6 in `c8State`. -/
def c8Move : MoveRec :=
  { fromSq := ⟨3, 4⟩, toSq := ⟨2, 3⟩, piece := some 'P', capturedPiece := none,
    promotion := none, isEnPassant := true, isCastling := false }

/-- The Position threaded through `isLegalMoveWithState` is returned
unchanged for every outcome: each early rejection returns before any
mutation, and the simulate-then-verify step always restores the
snapshot it took. -/
theorem isLegalStep_state (att : GameState → Coord → Color → Bool)
    (kic : GameState → Color → Bool) (s : GameState) (fr tc : Coord) (piece : Cell)
    (pc : Option Char) : (isLegalStep att kic s fr tc piece pc).2 = s := by
  simp only [isLegalStep]
  split
  · rfl
  · split
    · exact restore_snapshot_id s
    · exact restore_snapshot_id s

theorem isLegalFuel_state (n : Nat) (s : GameState) (fr tc : Coord) (piece : Cell)
    (pc : Option Char) : (isLegalFuel n s fr tc piece pc).2 = s := by
  cases n with
  | zero => rfl
  | succ n => exact isLegalStep_state _ _ s fr tc piece pc

/-- Claim C1: the claim states that every move accepted by
`isLegalMoveWithState` leaves the mover's king unattacked, the
simulate-then-verify step rejecting the rest with reason
`Leaves king in check`.  The code violates this: with White king a1,
black rook b8 and black king h8, the king move a1-b1 is accepted, yet
after applying it the b8 rook pseudo-legally reaches the king's square
b1 — and the source's own `isKingInCheck`, evaluated once the turn has
passed to Black, confirms the check.  The verify step can never fire
because `isKingInCheck` for the mover generates the opponent's moves
while the mover still holds the turn, so every generated candidate is
rejected with `Not turn` and the attack list is empty. -/
theorem C1_accepted_move_leaves_king_attacked :
    (isLegalMoveWithState c1State ⟨7, 0⟩ ⟨7, 1⟩ (some 'K') none).1.ok = true ∧
    boardGet (applyMoveToState c1State c1Move).board 7 1 = some 'K' ∧
    boardGet (applyMoveToState c1State c1Move).board 0 1 = some 'r' ∧
    specPseudoReach (applyMoveToState c1State c1Move) ⟨0, 1⟩ ⟨7, 1⟩ = true ∧
    isKingInCheck { applyMoveToState c1State c1Move with currentPlayer := Color.black }
      Color.white = true := by decide

/-- Claim C2: the claim states that `isSquareAttacked(square, color)` is
true iff some piece of the attacking side pseudo-legally reaches the
square, independent of which side holds the turn.  The code violates
this: in `c1State` (White to move) the black rook on b8 pseudo-legally
reaches b1, yet `isSquareAttacked(b1, white)` returns false, because the
attacker's candidate moves are generated through the full
`isLegalMoveWithState`, whose turn guard rejects every move of the
non-current side. -/
theorem C2_attack_oracle_depends_on_turn :
    specPseudoReach c1State ⟨0, 1⟩ ⟨7, 1⟩ = true ∧
    boardGet c1State.board 0 1 = some 'r' ∧
    pieceColor 'r' = Color.black ∧
    c1State.currentPlayer = Color.white ∧
    isSquareAttacked c1State ⟨7, 1⟩ Color.white = false := by decide

/-- Claim C3: the claim states that castling is rejected whenever one of
the king's three path squares is attacked.  The code violates this: in
`c3State` the black rook on e8 pseudo-legally reaches the White king's
origin square e1 (castling out of check), the kingside right is held and
f1/g1 are empty, yet `e1g1` is accepted as castling — the three
`isSquareAttacked` probes always return false for the side to move. -/
theorem C3_castling_out_of_check_accepted :
    c3State.castlingRights.K = true ∧
    boardGet c3State.board 7 5 = none ∧ boardGet c3State.board 7 6 = none ∧
    specPseudoReach c3State ⟨0, 4⟩ ⟨7, 4⟩ = true ∧
    (isLegalMoveWithState c3State ⟨7, 4⟩ ⟨7, 6⟩ (some 'K') none).1.ok = true ∧
    (isLegalMoveWithState c3State ⟨7, 4⟩ ⟨7, 6⟩ (some 'K') none).1.isCastling = true := by decide

/-- Claim C4: the claim states that the game ends exactly when the side
whose turn begins has no legal moves, checked at the start of that
side's turn.  The code violates this: `checkGameEndEarly` runs before
the side switch, so it tests the player who just moved.  After White's
legal pawn step b6-b7 in `c4State`, White's pieces are all stuck, so
`endPlayerTurn` ends the game (as `Stalemate` — the in-check test is
also constantly false), even though Black, whose turn would begin, still
has legal moves (for example the king step e5-e4). -/
theorem C4_terminal_check_tests_wrong_side :
    (isLegalMoveWithState c4State ⟨2, 1⟩ ⟨1, 1⟩ (some 'P') none).1.ok = true ∧
    (endPlayerTurn c4Match).gameResult = some "Stalemate" ∧
    (endPlayerTurn c4Match).gameActive = false ∧
    (isLegalMoveWithState { c4After with currentPlayer := Color.black } ⟨3, 4⟩ ⟨4, 4⟩
      (some 'k') none).1.ok = true := by decide

/-- Claim C7: a rejected move leaves the Position exactly as it was —
board, side to move, castling rights, en-passant target, halfmove clock
and fullmove number all unchanged. -/
theorem C7_rejection_leaves_position_unchanged (s : GameState) (fr tc : Coord)
    (piece : Cell) (pc : Option Char)
    (_hrej : (isLegalMoveWithState s fr tc piece pc).1.ok = false) :
    (isLegalMoveWithState s fr tc piece pc).2 = s :=
  isLegalFuel_state 2 s fr tc piece pc

/-- Witness for C7: the three-step pawn push e2-e5 from the standard
start is rejected, and the Position afterwards equals the input. -/
theorem C7_witness :
    (isLegalMoveWithState startState ⟨6, 4⟩ ⟨3, 4⟩ (some 'P') none).1.ok = false ∧
    (isLegalMoveWithState startState ⟨6, 4⟩ ⟨3, 4⟩ (some 'P') none).2 = startState :=
  ⟨by decide, C7_rejection_leaves_position_unchanged startState ⟨6, 4⟩ ⟨3, 4⟩ (some 'P') none
    (by decide)⟩

/-- Claim C8: `applyMoveToState` sets the en-passant target to the
skipped midpoint square exactly when the applied move is a pawn
double-step and clears it to `-` otherwise; and applying the en-passant
capture e5xd6 of spec scenario 4 removes the black pawn on d5, not the
(empty) destination square d6, which receives the capturing pawn. -/
theorem C8_en_passant_lifecycle :
    (∀ (s : GameState) (mv : MoveRec) (p : Char), mv.piece = some p →
      (applyMoveToState s mv).enPassantTarget =
        (if p.toLower = 'p' ∧ (mv.toSq.rank - mv.fromSq.rank).natAbs = 2 then
          coordsToAlgebraic ⟨(mv.toSq.rank + mv.fromSq.rank) / 2, mv.fromSq.file⟩
        else ['-'])) ∧
    ((isLegalMoveWithState c8State ⟨3, 4⟩ ⟨2, 3⟩ (some 'P') none).1.ok = true ∧
     (isLegalMoveWithState c8State ⟨3, 4⟩ ⟨2, 3⟩ (some 'P') none).1.isEnPassant = true ∧
     boardGet c8State.board 3 3 = some 'p' ∧
     boardGet (applyMoveToState c8State c8Move).board 2 3 = some 'P' ∧
     boardGet (applyMoveToState c8State c8Move).board 3 3 = none ∧
     boardGet (applyMoveToState c8State c8Move).board 3 4 = none) := by
  constructor
  · intro s mv p hp
    simp only [applyMoveToState, hp]
  · decide

/-- Witness for C8: the double-step e2-e4 from the standard start sets
the en-passant target to e3. -/
theorem C8_witness :
    (applyMoveToState startState
      { fromSq := ⟨6, 4⟩, toSq := ⟨4, 4⟩, piece := some 'P', capturedPiece := none,
        promotion := none, isEnPassant := false, isCastling := false }).enPassantTarget =
      ['e', '3'] := by
  have h := C8_en_passant_lifecycle.1 startState
    { fromSq := ⟨6, 4⟩, toSq := ⟨4, 4⟩, piece := some 'P', capturedPiece := none,
      promotion := none, isEnPassant := false, isCastling := false } 'P' rfl
  rw [h]; decide

/-- `updateCR` can only clear flags: each flag of the output being true
forces the corresponding input flag to be true. -/
theorem updateCR_mono (cr : CastlingRights) (p : Cell) (r f : Int) :
    ((updateCR cr p r f).K = true → cr.K = true) ∧
    ((updateCR cr p r f).Q = true → cr.Q = true) ∧
    ((updateCR cr p r f).k = true → cr.k = true) ∧
    ((updateCR cr p r f).q = true → cr.q = true) := by
  cases p with
  | none => simp [updateCR]
  | some c => simp only [updateCR]; split_ifs <;> simp_all

/-- A flag already cleared stays cleared through `updateCR`. -/
theorem updateCR_keeps_false (cr : CastlingRights) (p : Cell) (r f : Int) :
    (cr.K = false → (updateCR cr p r f).K = false) ∧
    (cr.Q = false → (updateCR cr p r f).Q = false) ∧
    (cr.k = false → (updateCR cr p r f).k = false) ∧
    (cr.q = false → (updateCR cr p r f).q = false) := by
  have h := updateCR_mono cr p r f
  refine ⟨fun hf => ?_, fun hf => ?_, fun hf => ?_, fun hf => ?_⟩
  · cases hx : (updateCR cr p r f).K
    · rfl
    · rw [h.1 hx] at hf; simp at hf
  · cases hx : (updateCR cr p r f).Q
    · rfl
    · rw [h.2.1 hx] at hf; simp at hf
  · cases hx : (updateCR cr p r f).k
    · rfl
    · rw [h.2.2.1 hx] at hf; simp at hf
  · cases hx : (updateCR cr p r f).q
    · rfl
    · rw [h.2.2.2 hx] at hf; simp at hf

/-- The castling rights after `applyMoveToState` are the two
`updateCR` passes of the source, for the moving piece's origin and the
captured piece's square. -/
theorem apply_castlingRights (s : GameState) (mv : MoveRec) (p : Char)
    (hp : mv.piece = some p) :
    (applyMoveToState s mv).castlingRights =
      updateCR (updateCR s.castlingRights (some p) mv.fromSq.rank mv.fromSq.file)
        mv.capturedPiece mv.toSq.rank mv.toSq.file := by
  simp only [applyMoveToState, hp]

/-- Claim C9: every application of `applyMoveToState` (for a move that
carries a piece) clears the relevant castling flags whenever a king
moves, a corner rook leaves its corner, or a rook is captured on a
corner square — and no application ever sets a cleared flag back to
true: rights are monotonically non-increasing across every apply. -/
theorem C9_castling_rights_monotone_and_cleared (s : GameState) (mv : MoveRec) (p : Char)
    (hp : mv.piece = some p) :
    (((applyMoveToState s mv).castlingRights.K = true → s.castlingRights.K = true) ∧
     ((applyMoveToState s mv).castlingRights.Q = true → s.castlingRights.Q = true) ∧
     ((applyMoveToState s mv).castlingRights.k = true → s.castlingRights.k = true) ∧
     ((applyMoveToState s mv).castlingRights.q = true → s.castlingRights.q = true)) ∧
    (p = 'K' → (applyMoveToState s mv).castlingRights.K = false ∧
               (applyMoveToState s mv).castlingRights.Q = false) ∧
    (p = 'k' → (applyMoveToState s mv).castlingRights.k = false ∧
               (applyMoveToState s mv).castlingRights.q = false) ∧
    (p = 'R' → mv.fromSq.rank = 7 → mv.fromSq.file = 0 →
      (applyMoveToState s mv).castlingRights.Q = false) ∧
    (p = 'R' → mv.fromSq.rank = 7 → mv.fromSq.file = 7 →
      (applyMoveToState s mv).castlingRights.K = false) ∧
    (p = 'r' → mv.fromSq.rank = 0 → mv.fromSq.file = 0 →
      (applyMoveToState s mv).castlingRights.q = false) ∧
    (p = 'r' → mv.fromSq.rank = 0 → mv.fromSq.file = 7 →
      (applyMoveToState s mv).castlingRights.k = false) ∧
    (mv.capturedPiece = some 'R' → mv.toSq.rank = 7 → mv.toSq.file = 0 →
      (applyMoveToState s mv).castlingRights.Q = false) ∧
    (mv.capturedPiece = some 'R' → mv.toSq.rank = 7 → mv.toSq.file = 7 →
      (applyMoveToState s mv).castlingRights.K = false) ∧
    (mv.capturedPiece = some 'r' → mv.toSq.rank = 0 → mv.toSq.file = 0 →
      (applyMoveToState s mv).castlingRights.q = false) ∧
    (mv.capturedPiece = some 'r' → mv.toSq.rank = 0 → mv.toSq.file = 7 →
      (applyMoveToState s mv).castlingRights.k = false) := by
  rw [apply_castlingRights s mv p hp]
  set cr1 := updateCR s.castlingRights (some p) mv.fromSq.rank mv.fromSq.file with hcr1
  have mono1 := updateCR_mono s.castlingRights (some p) mv.fromSq.rank mv.fromSq.file
  have mono2 := updateCR_mono cr1 mv.capturedPiece mv.toSq.rank mv.toSq.file
  have keep2 := updateCR_keeps_false cr1 mv.capturedPiece mv.toSq.rank mv.toSq.file
  refine ⟨⟨fun h => mono1.1 (mono2.1 h), fun h => mono1.2.1 (mono2.2.1 h),
          fun h => mono1.2.2.1 (mono2.2.2.1 h), fun h => mono1.2.2.2 (mono2.2.2.2 h)⟩,
    ?_, ?_, ?_, ?_, ?_, ?_, ?_, ?_, ?_, ?_⟩
  · intro hP
    subst hP
    refine ⟨keep2.1 ?_, keep2.2.1 ?_⟩ <;> simp [hcr1, updateCR]
  · intro hP
    subst hP
    refine ⟨keep2.2.2.1 ?_, keep2.2.2.2 ?_⟩ <;> simp [hcr1, updateCR]
  · intro hP hr hf
    subst hP
    exact keep2.2.1 (by simp [hcr1, updateCR, hr, hf])
  · intro hP hr hf
    subst hP
    exact keep2.1 (by simp [hcr1, updateCR, hr, hf])
  · intro hP hr hf
    subst hP
    exact keep2.2.2.2 (by simp [hcr1, updateCR, hr, hf])
  · intro hP hr hf
    subst hP
    exact keep2.2.2.1 (by simp [hcr1, updateCR, hr, hf])
  · intro hC hr hf
    rw [hC, hr, hf]
    simp [updateCR]
  · intro hC hr hf
    rw [hC, hr, hf]
    simp [updateCR]
  · intro hC hr hf
    rw [hC, hr, hf]
    simp [updateCR]
  · intro hC hr hf
    rw [hC, hr, hf]
    simp [updateCR]

/-- Witness for C9: from the standard start, a (hypothetical) king move
from e1 clears both White castling flags, and the monotonicity clause
instantiates there as well. -/
theorem C9_witness :
    ((applyMoveToState startState
        { fromSq := ⟨7, 4⟩, toSq := ⟨6, 4⟩, piece := some 'K', capturedPiece := none,
          promotion := none, isEnPassant := false, isCastling := false }).castlingRights.K = false) ∧
    ((applyMoveToState startState
        { fromSq := ⟨7, 4⟩, toSq := ⟨6, 4⟩, piece := some 'K', capturedPiece := none,
          promotion := none, isEnPassant := false, isCastling := false }).castlingRights.Q = false) := by
  have h := C9_castling_rights_monotone_and_cleared startState
    { fromSq := ⟨7, 4⟩, toSq := ⟨6, 4⟩, piece := some 'K', capturedPiece := none,
      promotion := none, isEnPassant := false, isCastling := false } 'K' rfl
  exact ⟨(h.2.1 rfl).1, (h.2.1 rfl).2⟩

/-- Claim C10: `generateAllLegalMoves(player)` and
`generateAllPseudoLegalMoves(player, {includeKingSafety: false})` return
exactly the same list of moves — the `includeKingSafety` option is
computed but never consulted by the enumeration loop, so both filter
every (from, to) pair through the identical full `isLegalMoveWithState`
check. -/
theorem C10_legal_equals_pseudo_legal (s : GameState) (player : Color) :
    generateAllLegalMoves s player =
      generateAllPseudoLegalMoves s player { includeKingSafety := some false } := rfl

theorem natDigits_small (n : Nat) (h : n < 10) : natDigits n = [digitChar n] := by
  simp [natDigits, natDigitsGo, h]

theorem digitChar_isDigit (m : Nat) (h : m < 10) : isDigitChar (digitChar m) = true := by
  interval_cases m <;> decide

theorem digitVal_digitChar (m : Nat) (h : m < 10) : digitVal (digitChar m) = m := by
  interval_cases m <;> decide

theorem digitChar_not_space (m : Nat) (h : m < 10) : digitChar m ≠ ' ' := by
  interval_cases m <;> decide

theorem natDigits_digits (n : Nat) : ∀ c ∈ natDigits n, isDigitChar c = true := by
  induction n using Nat.strong_induction_on with
  | _ n ih =>
      by_cases h : n < 10
      · rw [natDigits_small n h]
        intro c hc
        simp only [List.mem_singleton] at hc
        subst hc
        exact digitChar_isDigit n h
      · rw [natDigits_ge n h]
        intro c hc
        rcases List.mem_append.mp hc with h1 | h1
        · exact ih (n / 10) (Nat.div_lt_self (by omega) (by omega)) c h1
        · simp only [List.mem_singleton] at h1
          subst h1
          exact digitChar_isDigit (n % 10) (Nat.mod_lt _ (by omega))

theorem splitChar_not_mem (sep : Char) (xs : List Char) (h : sep ∉ xs) :
    splitChar sep xs = [xs] := by
  induction xs with
  | nil => rfl
  | cons c cs ih =>
      have hc : ¬ (c = sep) := fun he => h (he ▸ List.mem_cons_self c cs)
      have hcs : sep ∉ cs := fun hm => h (List.mem_cons_of_mem c hm)
      simp only [splitChar, if_neg hc, ih hcs]

theorem splitChar_append (sep : Char) (xs ys : List Char) (h : sep ∉ xs) :
    splitChar sep (xs ++ sep :: ys) = xs :: splitChar sep ys := by
  induction xs with
  | nil => simp [splitChar]
  | cons c cs ih =>
      have hc : ¬ (c = sep) := fun he => h (he ▸ List.mem_cons_self c cs)
      have hcs : sep ∉ cs := fun hm => h (List.mem_cons_of_mem c hm)
      simp only [List.cons_append, splitChar, if_neg hc, List.append_eq, ih hcs]

theorem splitChar_joinChar (sep : Char) (xss : List (List Char)) (hne : xss ≠ [])
    (h : ∀ xs ∈ xss, sep ∉ xs) : splitChar sep (joinChar sep xss) = xss := by
  induction xss with
  | nil => cases hne rfl
  | cons xs rest ih =>
      cases rest with
      | nil => simp [joinChar, splitChar_not_mem sep xs (h xs (by simp))]
      | cons y ys =>
          show splitChar sep (xs ++ sep :: joinChar sep (y :: ys)) = xs :: (y :: ys)
          rw [splitChar_append sep xs _ (h xs (by simp))]
          rw [ih (by simp) fun z hz => h z (List.mem_cons_of_mem _ hz)]

theorem parseIntGo_append (xs ys : List Char) (h : ∀ c ∈ xs, isDigitChar c = true) :
    ∀ acc, parseIntGo (xs ++ ys) acc = parseIntGo ys (parseIntGo xs acc) := by
  induction xs with
  | nil => intro acc; rfl
  | cons c cs ih =>
      intro acc
      have hd : isDigitChar c = true := h c (by simp)
      simp only [List.cons_append, parseIntGo, if_pos hd]
      exact ih (fun d hdm => h d (List.mem_cons_of_mem c hdm)) _

theorem parseIntGo_natDigits (n : Nat) :
    ∀ acc, parseIntGo (natDigits n) acc = acc * 10 ^ (natDigits n).length + n := by
  induction n using Nat.strong_induction_on with
  | _ n ih =>
      intro acc
      by_cases h : n < 10
      · rw [natDigits_small n h]
        simp only [parseIntGo, if_pos (digitChar_isDigit n h), digitVal_digitChar n h,
          List.length_singleton, pow_one]
      · have hd : n / 10 < n := Nat.div_lt_self (by omega) (by omega)
        rw [natDigits_ge n h,
          parseIntGo_append _ _ (fun c hc => natDigits_digits (n / 10) c hc) acc,
          ih (n / 10) hd acc]
        simp only [parseIntGo, if_pos (digitChar_isDigit (n % 10) (Nat.mod_lt _ (by omega))),
          digitVal_digitChar (n % 10) (Nat.mod_lt _ (by omega)), List.length_append,
          List.length_singleton]
        have hnm := Nat.div_add_mod n 10
        ring_nf
        omega

theorem parseInt_natDigits (n : Nat) : parseIntChars (natDigits n) = n := by
  have h := parseIntGo_natDigits n
  simpa [parseIntChars] using h 0

theorem pieces_not_digit (c : Char) (h : c ∈ pieceChars) : isDigitChar c = false := by
  fin_cases h <;> decide

theorem replicate_set_mid (k m : Nat) (c : Char) :
    (List.replicate (k + (m + 1)) (none : Cell)).set k (some c) =
      List.replicate k (none : Cell) ++ some c :: List.replicate m (none : Cell) := by
  induction k with
  | zero => simp [List.replicate_succ]
  | succ k ih =>
      have harith : k + 1 + (m + 1) = (k + (m + 1)) + 1 := by omega
      rw [harith, List.replicate_succ, List.replicate_succ]
      simpa [List.set] using ih

theorem set_append_right_len (pre t : List Cell) (j : Nat) (v : Cell) :
    (pre ++ t).set (pre.length + j) v = pre ++ t.set j v := by
  induction pre with
  | nil => simp
  | cons a l ih => simp [List.set, Nat.succ_add, ih]

theorem decode_encode_row (rest : List Cell) :
    ∀ (k : Nat) (pre : List Cell),
    (∀ c : Char, some c ∈ rest → c ∈ pieceChars) →
    pre.length + k + rest.length = 8 →
    decodeRowGo (encodeRowGo rest k) pre.length
        (pre ++ List.replicate (k + rest.length) (none : Cell))
      = pre ++ List.replicate k (none : Cell) ++ rest := by
  induction rest with
  | nil =>
      intro k pre _hv hlen
      simp only [encodeRowGo, List.length_nil, Nat.add_zero]
      by_cases hk : k > 0
      · rw [if_pos hk, natDigits_small k (by omega)]
        simp only [decodeRowGo, if_pos (digitChar_isDigit k (by omega))]
        simp [List.append_nil]
      · have hk0 : k = 0 := by omega
        subst hk0
        simp [decodeRowGo]
  | cons cell rest ih =>
      intro k pre hv hlen
      cases cell with
      | none =>
          simp only [encodeRowGo, List.length_cons]
          have h1 : k + (rest.length + 1) = (k + 1) + rest.length := by omega
          rw [h1]
          have h2 := ih (k + 1) pre (fun c hc => hv c (List.mem_cons_of_mem _ hc))
            (by simp at hlen ⊢; omega)
          rw [h2]
          rw [List.append_assoc, List.append_assoc]
          congr 1
          rw [show k + 1 = k + 1 from rfl, List.replicate_succ' k]
          simp
      | some c =>
          have hcp : c ∈ pieceChars := hv c (List.mem_cons_self _ _)
          have hcd : isDigitChar c = false := pieces_not_digit c hcp
          have hk8 : k < 10 := by simp at hlen; omega
          -- the digit prefix (when k > 0) advances the file pointer by k
          have hstep : ∀ row, decodeRowGo (encodeRowGo (some c :: rest) k) pre.length row =
              decodeRowGo (c :: encodeRowGo rest 0) (pre.length + k) row := by
            intro row
            simp only [encodeRowGo]
            by_cases hk : k > 0
            · rw [if_pos hk, natDigits_small k hk8]
              simp only [List.cons_append, List.nil_append, decodeRowGo,
                if_pos (digitChar_isDigit k hk8), digitVal_digitChar k hk8]
            · have hk0 : k = 0 := by omega
              subst hk0
              simp
          rw [hstep]
          simp only [decodeRowGo, hcd, Bool.false_eq_true, if_false]
          -- perform the set on the replicate block
          have hrow : (pre ++ List.replicate (k + (some c :: rest).length) (none : Cell)).set
              (pre.length + k) (some c) =
              (pre ++ List.replicate k (none : Cell) ++ [some c]) ++
                List.replicate (0 + rest.length) (none : Cell) := by
            simp only [List.length_cons]
            have h1 : k + (rest.length + 1) = k + (rest.length + 1) := rfl
            rw [set_append_right_len pre _ k (some c)]
            rw [replicate_set_mid k rest.length c]
            simp [List.append_assoc]
          rw [hrow]
          have hlen2 : (pre ++ List.replicate k (none : Cell) ++ [some c]).length + 0 +
              rest.length = 8 := by
            simp at hlen ⊢; omega
          have hfile : pre.length + k + 1 =
              (pre ++ List.replicate k (none : Cell) ++ [some c]).length := by
            simp
            omega
          rw [hfile]
          have h3 := ih 0 (pre ++ List.replicate k (none : Cell) ++ [some c])
            (fun d hd => hv d (List.mem_cons_of_mem _ hd)) hlen2
          rw [h3]
          simp [List.append_assoc]

/-- A cell is empty or holds one of the twelve piece characters. -/
def cellOK : Cell → Bool
  | none => true
  | some c => c ∈ pieceChars

theorem cellOK_iff (cl : Cell) :
    cellOK cl = true ↔ ∀ c : Char, cl = some c → c ∈ pieceChars := by
  cases cl with
  | none => simp [cellOK]
  | some c => simp [cellOK]

/-- Well-formedness of a board store: 8 rows of 8 cells whose occupied
cells hold one of the twelve piece characters.  Every Position the
source builds (from a validated FEN, the editor palette, or a legal
move) satisfies this. -/
def BoardWF (b : List (List Cell)) : Prop :=
  b.length = 8 ∧ (∀ row ∈ b, row.length = 8) ∧
    (∀ row ∈ b, ∀ cl ∈ row, cellOK cl = true)

instance decidableBoardWF (b : List (List Cell)) : Decidable (BoardWF b) := by
  unfold BoardWF
  exact inferInstance

theorem boardCells_of_WF (b : List (List Cell))
    (h : ∀ row ∈ b, ∀ cl ∈ row, cellOK cl = true) :
    ∀ row ∈ b, ∀ cl ∈ row, ∀ c : Char, cl = some c → c ∈ pieceChars :=
  fun row hrow cl hcl c hc => (cellOK_iff cl).mp (h row hrow cl hcl) c hc

/-- Well-formedness of the stored en-passant text: non-empty and free of
the FEN field separator.  In the source it is always `-` or a two
character square name. -/
def EpWF (e : List Char) : Prop := e ≠ [] ∧ ' ' ∉ e

instance decidableEpWF (e : List Char) : Decidable (EpWF e) := by
  unfold EpWF
  exact inferInstance

theorem mem_encodeRowGo (row : List Cell) : ∀ (k : Nat) (c : Char), c ∈ encodeRowGo row k →
    isDigitChar c = true ∨ some c ∈ row := by
  induction row with
  | nil =>
      intro k c hc
      simp only [encodeRowGo] at hc
      by_cases hk : k > 0
      · rw [if_pos hk] at hc
        exact Or.inl (natDigits_digits k c hc)
      · rw [if_neg hk] at hc
        cases hc
  | cons cell rest ih =>
      intro k c hc
      cases cell with
      | none =>
          simp only [encodeRowGo] at hc
          rcases ih (k + 1) c hc with h | h
          · exact Or.inl h
          · exact Or.inr (List.mem_cons_of_mem _ h)
      | some d =>
          simp only [encodeRowGo] at hc
          rcases List.mem_append.mp hc with h | h
          · by_cases hk : k > 0
            · rw [if_pos hk] at h
              exact Or.inl (natDigits_digits k c h)
            · rw [if_neg hk] at h
              cases h
          · rcases List.mem_cons.mp h with h1 | h1
            · subst h1
              exact Or.inr (List.mem_cons_self _ _)
            · rcases ih 0 c h1 with h2 | h2
              · exact Or.inl h2
              · exact Or.inr (List.mem_cons_of_mem _ h2)

theorem encodeRow_not_mem (row : List Cell) (x : Char)
    (hv : ∀ cl ∈ row, ∀ c : Char, cl = some c → c ∈ pieceChars)
    (hxd : isDigitChar x = false) (hxp : x ∉ pieceChars) : x ∉ encodeRow row := by
  intro hmem
  rcases mem_encodeRowGo row 0 x hmem with h | h
  · rw [hxd] at h; cases h
  · exact hxp (hv _ h x rfl)

theorem boardToPlacement_not_mem (b : List (List Cell)) (x : Char)
    (hv : ∀ row ∈ b, ∀ cl ∈ row, ∀ c : Char, cl = some c → c ∈ pieceChars)
    (hxd : isDigitChar x = false) (hxp : x ∉ pieceChars) (hxs : x ≠ '/') :
    x ∉ boardToPlacement b := by
  unfold boardToPlacement
  induction b with
  | nil => simp [joinChar]
  | cons row rest ih =>
      intro hmem
      have hrow : x ∉ encodeRow row := encodeRow_not_mem row x (hv row (by simp)) hxd hxp
      cases rest with
      | nil => simp only [List.map_cons, List.map_nil, joinChar] at hmem; exact hrow hmem
      | cons r2 rs =>
          simp only [List.map_cons, joinChar, List.mem_append, List.mem_cons] at hmem
          rcases hmem with h | h | h
          · exact hrow h
          · exact hxs h
          · exact ih (fun rw hrw => hv rw (List.mem_cons_of_mem _ hrw))
              (by simpa [joinChar] using h)

theorem parse_board (b : List (List Cell)) (hwf : BoardWF b) :
    parseFENPlacement (boardToPlacement b) = b := by
  obtain ⟨hlen, hrows, hcells0⟩ := hwf
  have hcells := boardCells_of_WF b hcells0
  have hbne : b.map encodeRow ≠ [] := by
    intro h
    rw [List.map_eq_nil_iff] at h
    rw [h] at hlen
    cases hlen
  have hnoslash : ∀ xs ∈ b.map encodeRow, '/' ∉ xs := by
    intro xs hxs
    rcases List.mem_map.mp hxs with ⟨row, hrow, hrfl⟩
    subst hrfl
    exact encodeRow_not_mem row '/' (hcells row hrow) (by decide) (by decide)
  show (List.range 8).map
      (fun rank => decodeRowGo ((splitChar '/' (joinChar '/' (b.map encodeRow))).getD rank [])
        0 (List.replicate 8 (none : Cell))) = b
  rw [splitChar_joinChar '/' (b.map encodeRow) hbne hnoslash]
  apply List.ext_getElem
  · simp [hlen]
  · intro i h1 h2
    simp only [List.getElem_map, List.getElem_range] at h1 ⊢
    have hi8 : i < 8 := by simpa using h1
    have himap : i < (b.map encodeRow).length := by simp [hlen]; omega
    rw [List.getD_eq_getElem (b.map encodeRow) [] himap]
    simp only [List.getElem_map]
    have hrow8 : (b[i]).length = 8 := hrows _ (List.getElem_mem h2)
    have hrt := decode_encode_row (b[i]) 0 []
      (fun c hc => hcells _ (List.getElem_mem h2) _ hc c rfl)
      (by simp [hrow8])
    simpa [encodeRow, hrow8] using hrt

theorem natDigits_ne_nil (n : Nat) : natDigits n ≠ [] := by
  by_cases h : n < 10
  · rw [natDigits_small n h]; simp
  · rw [natDigits_ge n h]; simp

theorem natDigits_no_space (n : Nat) : ' ' ∉ natDigits n := by
  intro h
  have := natDigits_digits n ' ' h
  simp [isDigitChar] at this

theorem castlingString_no_space (cr : CastlingRights) : ' ' ∉ castlingString cr := by
  rcases cr with ⟨hK, hQ, hk, hq⟩
  cases hK <;> cases hQ <;> cases hk <;> cases hq <;> decide

theorem castle_roundtrip (cr : CastlingRights) :
    (CastlingRights.mk ('K' ∈ castlingString cr) ('Q' ∈ castlingString cr)
      ('k' ∈ castlingString cr) ('q' ∈ castlingString cr)) = cr := by
  rcases cr with ⟨hK, hQ, hk, hq⟩
  cases hK <;> cases hQ <;> cases hk <;> cases hq <;> decide

/-- Decoding the FEN text produced by `syncFENFromState` restores the
Position exactly, for any Position with a well-formed board store, a
well-formed en-passant text and a full-move number of at least one. -/
theorem decode_encode (s : GameState) (hb : BoardWF s.board) (hep : EpWF s.enPassantTarget)
    (hfm : 1 ≤ s.fullmoveNumber) :
    setPositionFromFEN (syncFENFromState s) = s := by
  obtain ⟨hepne, hepns⟩ := hep
  have hmax0 : max 0 s.halfmoveClock = s.halfmoveClock := Nat.zero_max _
  have hmax1 : max 1 s.fullmoveNumber = s.fullmoveNumber := Nat.max_eq_right hfm
  have hepif : (if s.enPassantTarget = [] then ['-'] else s.enPassantTarget) =
      s.enPassantTarget := if_neg hepne
  have hsync : syncFENFromState s =
      boardToPlacement s.board ++ ' ' ::
        ((if s.currentPlayer = Color.white then ['w'] else ['b']) ++ ' ' ::
          (castlingString s.castlingRights ++ ' ' ::
            (s.enPassantTarget ++ ' ' ::
              (natDigits s.halfmoveClock ++ ' ' :: natDigits s.fullmoveNumber)))) := by
    simp only [syncFENFromState]
    rw [hmax0, hmax1, hepif]
    simp [List.append_assoc]
  have hplns : ' ' ∉ boardToPlacement s.board :=
    boardToPlacement_not_mem s.board ' ' (boardCells_of_WF s.board hb.2.2)
      (by decide) (by decide) (by decide)
  have hsidens : ' ' ∉ (if s.currentPlayer = Color.white then ['w'] else ['b']) := by
    cases s.currentPlayer <;> decide
  have hsplit : splitChar ' ' (syncFENFromState s) =
      [boardToPlacement s.board,
       (if s.currentPlayer = Color.white then ['w'] else ['b']),
       castlingString s.castlingRights,
       s.enPassantTarget,
       natDigits s.halfmoveClock,
       natDigits s.fullmoveNumber] := by
    rw [hsync]
    rw [splitChar_append ' ' _ _ hplns]
    rw [splitChar_append ' ' _ _ hsidens]
    rw [splitChar_append ' ' _ _ (castlingString_no_space s.castlingRights)]
    rw [splitChar_append ' ' _ _ hepns]
    rw [splitChar_append ' ' _ _ (natDigits_no_space s.halfmoveClock)]
    rw [splitChar_not_mem ' ' _ (natDigits_no_space s.fullmoveNumber)]
  show GameState.mk
      (parseFENPlacement ((splitChar ' ' (syncFENFromState s)).getD 0 []))
      (if (splitChar ' ' (syncFENFromState s)).getD 1 [] = ['w'] then Color.white
        else Color.black)
      (CastlingRights.mk
        ('K' ∈ (splitChar ' ' (syncFENFromState s)).getD 2 [])
        ('Q' ∈ (splitChar ' ' (syncFENFromState s)).getD 2 [])
        ('k' ∈ (splitChar ' ' (syncFENFromState s)).getD 2 [])
        ('q' ∈ (splitChar ' ' (syncFENFromState s)).getD 2 []))
      (if (splitChar ' ' (syncFENFromState s)).getD 3 [] = [] then ['-']
        else (splitChar ' ' (syncFENFromState s)).getD 3 [])
      (parseIntChars (if (splitChar ' ' (syncFENFromState s)).getD 4 [] = [] then ['0']
        else (splitChar ' ' (syncFENFromState s)).getD 4 []))
      (parseIntChars (if (splitChar ' ' (syncFENFromState s)).getD 5 [] = [] then ['1']
        else (splitChar ' ' (syncFENFromState s)).getD 5 [])) = s
  rw [hsplit]
  simp only [List.getD_cons_zero, List.getD_cons_succ]
  rw [if_neg hepne, if_neg (natDigits_ne_nil s.halfmoveClock),
    if_neg (natDigits_ne_nil s.fullmoveNumber)]
  rw [show s = GameState.mk s.board s.currentPlayer s.castlingRights s.enPassantTarget
    s.halfmoveClock s.fullmoveNumber from rfl]
  rw [GameState.mk.injEq]
  refine ⟨parse_board s.board hb, ?_, castle_roundtrip s.castlingRights, rfl,
    parseInt_natDigits s.halfmoveClock, parseInt_natDigits s.fullmoveNumber⟩
  by_cases hcp : s.currentPlayer = Color.white
  · rw [if_pos hcp, hcp]
    simp
  · rw [if_neg hcp]
    have hb2 : s.currentPlayer = Color.black := by
      cases h2 : s.currentPlayer
      · exact absurd h2 hcp
      · rfl
    rw [hb2]
    simp

theorem decodeRowGo_length (cs : List Char) :
    ∀ (file : Nat) (row : List Cell), (decodeRowGo cs file row).length = row.length := by
  induction cs with
  | nil => intro file row; rfl
  | cons c cs ih =>
      intro file row
      simp only [decodeRowGo]
      by_cases h : isDigitChar c = true
      · rw [if_pos h, ih]
      · rw [if_neg h, ih, List.length_set]

theorem decodeRowGo_cells (cs : List Char) :
    ∀ (file : Nat) (row : List Cell) (cl : Cell), cl ∈ decodeRowGo cs file row →
      cl ∈ row ∨ ∃ c, c ∈ cs ∧ isDigitChar c = false ∧ cl = some c := by
  induction cs with
  | nil => intro file row cl h; exact Or.inl h
  | cons c cs ih =>
      intro file row cl h
      simp only [decodeRowGo] at h
      by_cases hd : isDigitChar c = true
      · rw [if_pos hd] at h
        rcases ih _ _ _ h with h1 | ⟨d, hd1, hd2, hd3⟩
        · exact Or.inl h1
        · exact Or.inr ⟨d, List.mem_cons_of_mem _ hd1, hd2, hd3⟩
      · rw [if_neg hd] at h
        rcases ih _ _ _ h with h1 | ⟨d, hd1, hd2, hd3⟩
        · rcases List.mem_or_eq_of_mem_set h1 with h2 | h2
          · exact Or.inl h2
          · exact Or.inr ⟨c, List.mem_cons_self _ _, Bool.not_eq_true _ ▸ hd, h2⟩
        · exact Or.inr ⟨d, List.mem_cons_of_mem _ hd1, hd2, hd3⟩

theorem rowCountGo_chars (cs : List Char) :
    ∀ (cnt m : Nat), rowCountGo cs cnt = some m →
      ∀ c ∈ cs, isDigitChar c = true ∨ c ∈ pieceChars := by
  induction cs with
  | nil => intro cnt m _ c hc; cases hc
  | cons d ds ih =>
      intro cnt m h c hc
      simp only [rowCountGo] at h
      by_cases hd : isDigitChar d = true
      · rw [if_pos hd] at h
        rcases List.mem_cons.mp hc with h1 | h1
        · exact Or.inl (h1 ▸ hd)
        · exact ih _ _ h c h1
      · rw [if_neg hd] at h
        by_cases hp : d ∈ pieceChars
        · rw [if_pos hp] at h
          rcases List.mem_cons.mp hc with h1 | h1
          · exact Or.inr (h1 ▸ hp)
          · exact ih _ _ h c h1
        · rw [if_neg hp] at h
          cases h

theorem epRegexOK_WF (e : List Char) (h : epRegexOK e = true) : EpWF e := by
  unfold epRegexOK at h
  rcases e with _ | ⟨f, _ | ⟨r, _ | ⟨x, xs⟩⟩⟩
  · simp at h
  · constructor
    · simp
    · intro hm
      simp only [List.mem_singleton] at hm
      subst hm
      simp [isFileChar] at h
  · constructor
    · simp
    · intro hm
      simp only [Bool.or_eq_true, decide_eq_true_eq] at h
      rcases h with h | h
      · cases h
      · simp only [List.mem_cons, List.not_mem_nil, or_false] at hm
        simp only [Bool.and_eq_true, Bool.or_eq_true, decide_eq_true_eq] at h
        rcases hm with hm | hm
        · subst hm
          simp [isFileChar] at h
        · subst hm
          rcases h.2 with h2 | h2 <;> cases h2
  · simp at h

theorem validateFEN_spec (fen : List Char) (h : validateFEN fen = true) :
    4 ≤ (splitChar ' ' fen).length ∧
    (splitChar '/' ((splitChar ' ' fen).getD 0 [])).length = 8 ∧
    (∀ row ∈ splitChar '/' ((splitChar ' ' fen).getD 0 []), rowCountGo row 0 = some 8) ∧
    ((splitChar ' ' fen).getD 1 [] = ['w'] ∨ (splitChar ' ' fen).getD 1 [] = ['b']) ∧
    castleRegexOK ((splitChar ' ' fen).getD 2 []) = true ∧
    epRegexOK ((splitChar ' ' fen).getD 3 []) = true := by
  simp only [validateFEN] at h
  split_ifs at h with h1 h2 h3 h4 h5 h6 h7 h8 h9
  refine ⟨by omega, by omega, ?_, h5, h6, h7⟩
  intro row hrow
  rw [List.all_eq_true] at h4
  exact of_decide_eq_true (h4 row hrow)

theorem decode_board_eq (fen : List Char) :
    (setPositionFromFEN fen).board = parseFENPlacement ((splitChar ' ' fen).getD 0 []) := rfl

theorem decode_ep_eq (fen : List Char) :
    (setPositionFromFEN fen).enPassantTarget =
      (if (splitChar ' ' fen).getD 3 [] = [] then ['-']
       else (splitChar ' ' fen).getD 3 []) := rfl

theorem parseFENPlacement_length (pl : List Char) : (parseFENPlacement pl).length = 8 := by
  simp [parseFENPlacement]

theorem parseFENPlacement_rowlen (pl : List Char) :
    ∀ row ∈ parseFENPlacement pl, row.length = 8 := by
  intro row h
  simp only [parseFENPlacement, List.mem_map] at h
  obtain ⟨r, _, hr⟩ := h
  subst hr
  rw [decodeRowGo_length]
  simp

theorem decode_cells (fen : List Char) (hv : validateFEN fen = true) :
    ∀ row ∈ (setPositionFromFEN fen).board, ∀ cl ∈ row, ∀ c : Char,
      cl = some c → c ∈ pieceChars := by
  obtain ⟨_, hlen8, hrowsOK, _, _, _⟩ := validateFEN_spec fen hv
  rw [decode_board_eq]
  intro row hrow cl hcl c hc
  simp only [parseFENPlacement, List.mem_map] at hrow
  obtain ⟨rank, hrank, hr⟩ := hrow
  subst hr
  rcases decodeRowGo_cells _ _ _ _ hcl with h1 | ⟨d, hd1, hd2, hd3⟩
  · rw [List.mem_replicate] at h1
    rw [hc] at h1
    cases h1.2
  · rw [hc] at hd3
    injection hd3 with hd3
    subst hd3
    have hrank8 : rank < 8 := List.mem_range.mp hrank
    have hin : (splitChar '/' ((splitChar ' ' fen).getD 0 [])).getD rank [] ∈
        splitChar '/' ((splitChar ' ' fen).getD 0 []) := by
      have hlt : rank < (splitChar '/' ((splitChar ' ' fen).getD 0 [])).length := by
        rw [hlen8]; exact hrank8
      rw [List.getD_eq_getElem _ _ hlt]
      exact List.getElem_mem _
    rcases rowCountGo_chars _ 0 8 (hrowsOK _ hin) c hd1 with h | h
    · rw [h] at hd2; cases hd2
    · exact h

theorem decode_BoardWF (fen : List Char) (hv : validateFEN fen = true) :
    BoardWF (setPositionFromFEN fen).board :=
  ⟨by rw [decode_board_eq]; exact parseFENPlacement_length _,
   by rw [decode_board_eq]; exact parseFENPlacement_rowlen _,
   fun row hrow cl hcl => (cellOK_iff cl).mpr (decode_cells fen hv row hrow cl hcl)⟩

theorem decode_EpWF (fen : List Char) (hv : validateFEN fen = true) :
    EpWF (setPositionFromFEN fen).enPassantTarget := by
  obtain ⟨_, _, _, _, _, hep⟩ := validateFEN_spec fen hv
  rw [decode_ep_eq]
  by_cases hnil : (splitChar ' ' fen).getD 3 [] = []
  · rw [hnil] at hep
    exact absurd hep (by decide)
  · rw [if_neg hnil]
    exact epRegexOK_WF _ hep

theorem encode_decode (fen : List Char) (hv : validateFEN fen = true)
    (hfm : 1 ≤ (setPositionFromFEN fen).fullmoveNumber) :
    setPositionFromFEN (syncFENFromState (setPositionFromFEN fen)) = setPositionFromFEN fen :=
  decode_encode _ (decode_BoardWF fen hv) (decode_EpWF fen hv) hfm

/-- A well-formed FEN whose full-move field is `0`. -/
def c5Fen : List Char := "k7/8/8/8/8/8/8/K7 w - - 0 0".data

/-- Claim C5 counterexample: decoding the well-formed FEN
`k7/8/8/8/8/8/8/K7 w - - 0 0` (a playable position: both kings present)
yields full-move number 0, but `syncFENFromState` clamps the emitted
full-move field to 1, so re-decoding the encoded text does not restore
the Position: the round-trip law fails as stated. -/
theorem C5_counterexample :
    validateFEN c5Fen = true ∧
    (setPositionFromFEN c5Fen).fullmoveNumber = 0 ∧
    (setPositionFromFEN (syncFENFromState (setPositionFromFEN c5Fen))).fullmoveNumber = 1 ∧
    setPositionFromFEN (syncFENFromState (setPositionFromFEN c5Fen)) ≠
      setPositionFromFEN c5Fen := by
  decide

/-- Claim C5 (amended): the FEN round-trip law restricted to full-move
numbers of at least one.  Part one: decoding the output of
`syncFENFromState` restores every Position with a well-formed board
store, a well-formed en-passant text and full-move number at least 1.
Part two: for every FEN accepted by `validateFEN` that decodes to a
full-move number of at least 1 (equivalently, whose full-move field is
absent, empty or at least 1), encoding its decoding denotes the same
Position under a second decode. -/
theorem C5_fen_round_trip :
    (∀ s : GameState, BoardWF s.board → EpWF s.enPassantTarget → 1 ≤ s.fullmoveNumber →
      setPositionFromFEN (syncFENFromState s) = s) ∧
    (∀ fen : List Char, validateFEN fen = true →
      1 ≤ (setPositionFromFEN fen).fullmoveNumber →
      setPositionFromFEN (syncFENFromState (setPositionFromFEN fen)) =
        setPositionFromFEN fen) :=
  ⟨decode_encode, encode_decode⟩

/-- Witness for C5: both round-trip directions at the standard start
position and its FEN. -/
theorem C5_witness :
    setPositionFromFEN (syncFENFromState startState) = startState ∧
    setPositionFromFEN (syncFENFromState (setPositionFromFEN startFEN)) =
      setPositionFromFEN startFEN :=
  ⟨C5_fen_round_trip.1 startState (by decide) (by decide) (by decide),
   C5_fen_round_trip.2 startFEN (by decide) (by decide)⟩

theorem stripOpt_nil_iff (c : Char) (s : List Char) :
    stripOpt c s = [] ↔ s = [] ∨ s = [c] := by
  cases s with
  | nil => simp [stripOpt]
  | cons x xs =>
      simp only [stripOpt]
      by_cases h : x = c
      · subst h
        simp
      · simp [h]

theorem stripOpt_cons_eq (c : Char) (xs : List Char) : stripOpt c (c :: xs) = xs := by
  simp [stripOpt]

theorem stripOpt_cons_ne (c x : Char) (xs : List Char) (h : ¬ x = c) :
    stripOpt c (x :: xs) = x :: xs := by
  simp [stripOpt, h]

theorem castle_chainA (s : List Char) :
    stripOpt 'q' s = [] ↔ s ∈ ([[], ['q']] : List (List Char)) := by
  rw [stripOpt_nil_iff]
  simp

theorem castle_chainB (s : List Char) :
    stripOpt 'q' (stripOpt 'k' s) = [] ↔
      s ∈ ([[], ['q'], ['k'], ['k', 'q']] : List (List Char)) := by
  cases s with
  | nil => decide
  | cons x xs =>
      by_cases hx : x = 'k'
      · subst hx
        rw [stripOpt_cons_eq, castle_chainA xs]
        simp
      · rw [stripOpt_cons_ne _ _ _ hx, castle_chainA (x :: xs)]
        simp [hx]

theorem castle_chainC (s : List Char) :
    stripOpt 'q' (stripOpt 'k' (stripOpt 'Q' s)) = [] ↔
      s ∈ ([[], ['q'], ['k'], ['k', 'q'], ['Q'], ['Q', 'q'], ['Q', 'k'], ['Q', 'k', 'q']] :
        List (List Char)) := by
  cases s with
  | nil => decide
  | cons x xs =>
      by_cases hx : x = 'Q'
      · subst hx
        rw [stripOpt_cons_eq, castle_chainB xs]
        simp
      · rw [stripOpt_cons_ne _ _ _ hx, castle_chainB (x :: xs)]
        simp [hx]

theorem castle_chainD (s : List Char) :
    stripOpt 'q' (stripOpt 'k' (stripOpt 'Q' (stripOpt 'K' s))) = [] ↔
      s ∈ ([[], ['q'], ['k'], ['k', 'q'], ['Q'], ['Q', 'q'], ['Q', 'k'], ['Q', 'k', 'q'],
            ['K'], ['K', 'q'], ['K', 'k'], ['K', 'k', 'q'], ['K', 'Q'], ['K', 'Q', 'q'],
            ['K', 'Q', 'k'], ['K', 'Q', 'k', 'q']] : List (List Char)) := by
  cases s with
  | nil => decide
  | cons x xs =>
      by_cases hx : x = 'K'
      · subst hx
        rw [stripOpt_cons_eq, castle_chainC xs]
        simp
      · rw [stripOpt_cons_ne _ _ _ hx, castle_chainC (x :: xs)]
        simp [hx]

theorem castleForms_exists (s : List Char) :
    s ∈ ([[], ['q'], ['k'], ['k', 'q'], ['Q'], ['Q', 'q'], ['Q', 'k'], ['Q', 'k', 'q'],
          ['K'], ['K', 'q'], ['K', 'k'], ['K', 'k', 'q'], ['K', 'Q'], ['K', 'Q', 'q'],
          ['K', 'Q', 'k'], ['K', 'Q', 'k', 'q']] : List (List Char)) ↔
      ∃ b1 b2 b3 b4 : Bool,
        s = (if b1 then ['K'] else []) ++ (if b2 then ['Q'] else []) ++
            (if b3 then ['k'] else []) ++ (if b4 then ['q'] else []) := by
  constructor
  · intro h
    simp only [List.mem_cons, List.not_mem_nil, or_false] at h
    rcases h with h|h|h|h|h|h|h|h|h|h|h|h|h|h|h|h <;> subst h
    · exact ⟨false, false, false, false, rfl⟩
    · exact ⟨false, false, false, true, rfl⟩
    · exact ⟨false, false, true, false, rfl⟩
    · exact ⟨false, false, true, true, rfl⟩
    · exact ⟨false, true, false, false, rfl⟩
    · exact ⟨false, true, false, true, rfl⟩
    · exact ⟨false, true, true, false, rfl⟩
    · exact ⟨false, true, true, true, rfl⟩
    · exact ⟨true, false, false, false, rfl⟩
    · exact ⟨true, false, false, true, rfl⟩
    · exact ⟨true, false, true, false, rfl⟩
    · exact ⟨true, false, true, true, rfl⟩
    · exact ⟨true, true, false, false, rfl⟩
    · exact ⟨true, true, false, true, rfl⟩
    · exact ⟨true, true, true, false, rfl⟩
    · exact ⟨true, true, true, true, rfl⟩
  · rintro ⟨b1, b2, b3, b4, h⟩
    subst h
    cases b1 <;> cases b2 <;> cases b3 <;> cases b4 <;> decide

/-- The castling-field regex accepts exactly `-` and the in-order
subsequences of `KQkq` (the empty subsequence included). -/
theorem castleRegexOK_iff (s : List Char) :
    castleRegexOK s = true ↔
      (s = ['-'] ∨ ∃ b1 b2 b3 b4 : Bool,
        s = (if b1 then ['K'] else []) ++ (if b2 then ['Q'] else []) ++
            (if b3 then ['k'] else []) ++ (if b4 then ['q'] else [])) := by
  unfold castleRegexOK
  rw [Bool.or_eq_true, decide_eq_true_eq, decide_eq_true_eq, castle_chainD,
    castleForms_exists]

/-- Contribution of one placement character to the expanded square
count: its numeric value for a digit, one for a piece letter. -/
def rowContrib (c : Char) : Nat := if isDigitChar c then digitVal c else 1

theorem rowCountGo_eq (cs : List Char) : ∀ cnt : Nat,
    rowCountGo cs cnt =
      (if cs.all (fun c => isDigitChar c || decide (c ∈ pieceChars)) then
        some (cnt + (cs.map rowContrib).sum)
      else none) := by
  induction cs with
  | nil => intro cnt; simp [rowCountGo]
  | cons c cs ih =>
      intro cnt
      simp only [rowCountGo, List.all_cons, List.map_cons, List.sum_cons, rowContrib]
      by_cases hd : isDigitChar c = true
      · rw [if_pos hd, ih]
        by_cases hall : (cs.all fun c => isDigitChar c || decide (c ∈ pieceChars)) = true
        · rw [if_pos hall, if_pos (by simp [hd, hall])]
          rw [if_pos hd]
          congr 1
          omega
        · rw [if_neg hall, if_neg (by
            simp only [Bool.and_eq_true]
            intro hcontra
            exact absurd hcontra.2 hall)]
      · rw [if_neg hd]
        by_cases hp : c ∈ pieceChars
        · rw [if_pos hp, ih]
          by_cases hall : (cs.all fun c => isDigitChar c || decide (c ∈ pieceChars)) = true
          · rw [if_pos hall, if_pos (by simp [hp, hall]), if_neg hd]
            congr 1
            omega
          · rw [if_neg hall, if_neg (by
              simp only [Bool.and_eq_true]
              intro hcontra
              exact absurd hcontra.2 hall)]
        · rw [if_neg hp, if_neg (by
            simp only [Bool.and_eq_true, Bool.or_eq_true, decide_eq_true_eq]
            intro hcontra
            rcases hcontra.1 with h | h
            · exact absurd h hd
            · exact absurd h hp)]

theorem rowOK_iff (row : List Char) :
    rowCountGo row 0 = some 8 ↔
      ((∀ c ∈ row, isDigitChar c = true ∨ c ∈ pieceChars) ∧
        (row.map rowContrib).sum = 8) := by
  rw [rowCountGo_eq]
  by_cases hall : (row.all fun c => isDigitChar c || decide (c ∈ pieceChars)) = true
  · rw [if_pos hall]
    rw [List.all_eq_true] at hall
    constructor
    · intro h
      refine ⟨?_, by injection h with h2; omega⟩
      intro c hc
      have := hall c hc
      simp only [Bool.or_eq_true, decide_eq_true_eq] at this
      exact this
    · rintro ⟨_, hsum⟩
      rw [hsum]
  · rw [if_neg hall]
    constructor
    · intro h; cases h
    · rintro ⟨hchars, _⟩
      exfalso
      apply hall
      rw [List.all_eq_true]
      intro c hc
      simp only [Bool.or_eq_true, decide_eq_true_eq]
      exact hchars c hc

theorem epRegexOK_iff (s : List Char) :
    epRegexOK s = true ↔
      (s = ['-'] ∨ ∃ f : Char, isFileChar f = true ∧
        (s = [f] ∨ s = [f, '3'] ∨ s = [f, '6'])) := by
  unfold epRegexOK
  rcases s with _ | ⟨f, _ | ⟨r, _ | ⟨x, xs⟩⟩⟩
  · simp
  · simp only [Bool.or_eq_true, decide_eq_true_eq]
    constructor
    · rintro (h | h)
      · exact Or.inl h
      · exact Or.inr ⟨f, h, Or.inl rfl⟩
    · rintro (h | ⟨g, hg, hs | hs | hs⟩)
      · exact Or.inl h
      · injection hs with h1 _; subst h1; exact Or.inr hg
      · cases hs
      · cases hs
  · simp only [Bool.or_eq_true, Bool.and_eq_true, decide_eq_true_eq]
    constructor
    · rintro (h | ⟨hf, hr | hr⟩)
      · cases h
      · exact Or.inr ⟨f, hf, Or.inr (Or.inl (by rw [hr]))⟩
      · exact Or.inr ⟨f, hf, Or.inr (Or.inr (by rw [hr]))⟩
    · rintro (h | ⟨g, hg, hs | hs | hs⟩)
      · cases h
      · cases hs
      · injection hs with h1 h2
        injection h2 with h2
        subst h1
        exact Or.inr ⟨hg, Or.inl h2⟩
      · injection hs with h1 h2
        injection h2 with h2
        subst h1
        exact Or.inr ⟨hg, Or.inr h2⟩
  · simp only [Bool.or_eq_true, decide_eq_true_eq]
    constructor
    · rintro (h | h)
      · cases h
      · cases h
    · rintro (h | ⟨g, _, hs | hs | hs⟩)
      · cases h
      · cases hs
      · cases hs
      · cases hs

/-- The set of malformations listed by the claim for C6, written from
the claim's words: not exactly 8 rows; a character outside the 12 piece
letters and the digits 1-8; a row expanding to other than 8 squares; a
side field other than `w`/`b`; a castling field that is neither `-` nor
a subset of the letters KQkq in any order (no repeats); an en-passant
field that is neither `-` nor a valid algebraic square.  The claim
states `validateFEN` accepts exactly the strings with none of these. -/
def claimWellFormedFEN (fen : List Char) : Prop :=
  let parts := splitChar ' ' fen
  let rows := splitChar '/' (parts.getD 0 [])
  rows.length = 8 ∧
  (∀ row ∈ rows,
    (∀ c ∈ row, c ∈ pieceChars ∨ c ∈ ['1', '2', '3', '4', '5', '6', '7', '8']) ∧
    (row.map rowContrib).sum = 8) ∧
  (parts.getD 1 [] = ['w'] ∨ parts.getD 1 [] = ['b']) ∧
  (parts.getD 2 [] = ['-'] ∨
    ((parts.getD 2 []).Nodup ∧ ∀ c ∈ parts.getD 2 [], c ∈ ['K', 'Q', 'k', 'q'])) ∧
  (parts.getD 3 [] = ['-'] ∨
    ((parts.getD 3 []).length = 2 ∧
      (parts.getD 3 []).getD 0 ' ' ∈ ['a', 'b', 'c', 'd', 'e', 'f', 'g', 'h'] ∧
      (parts.getD 3 []).getD 1 ' ' ∈ ['1', '2', '3', '4', '5', '6', '7', '8']))

/-- The FEN "8/8/8/8/8/8/8/8 w qK - 0 1": its castling field `qK` is a
subset of the letters KQkq (in another order), so the claim says it is
accepted; `validateFEN` rejects it because its regex only accepts the
fixed order `K?Q?k?q?`. -/
def c6Fen : List Char := "8/8/8/8/8/8/8/8 w qK - 0 1".data

/-- Claim C6 counterexample: a FEN exhibiting none of the claim's listed
malformations that `validateFEN` nevertheless rejects. -/
theorem C6_counterexample : claimWellFormedFEN c6Fen ∧ validateFEN c6Fen = false := by
  constructor
  · show claimWellFormedFEN c6Fen
    unfold claimWellFormedFEN
    decide
  · decide

/-- What `validateFEN` actually accepts, clause for clause (the amended
claim for C6): a non-empty string with at least four space-separated
fields, whose placement has exactly 8 rows of characters drawn from the
12 piece letters and the digits 0-9 with run-length-expanded count
exactly 8 per row, side exactly `w` or `b`, castling field `-` or an
in-order (possibly empty) subsequence of `KQkq`, en-passant field `-`,
a file letter a-h, or a file letter followed by `3` or `6`, and fifth
and sixth fields that are all-digit strings whenever present and
non-empty. -/
def amendedWellFormedFEN (fen : List Char) : Prop :=
  let parts := splitChar ' ' fen
  let rows := splitChar '/' (parts.getD 0 [])
  fen ≠ [] ∧
  4 ≤ parts.length ∧
  rows.length = 8 ∧
  (∀ row ∈ rows,
    (∀ c ∈ row, isDigitChar c = true ∨ c ∈ pieceChars) ∧
    (row.map rowContrib).sum = 8) ∧
  (parts.getD 1 [] = ['w'] ∨ parts.getD 1 [] = ['b']) ∧
  (parts.getD 2 [] = ['-'] ∨ ∃ b1 b2 b3 b4 : Bool,
    parts.getD 2 [] = (if b1 then ['K'] else []) ++ (if b2 then ['Q'] else []) ++
      (if b3 then ['k'] else []) ++ (if b4 then ['q'] else [])) ∧
  (parts.getD 3 [] = ['-'] ∨ ∃ f : Char, isFileChar f = true ∧
    (parts.getD 3 [] = [f] ∨ parts.getD 3 [] = [f, '3'] ∨ parts.getD 3 [] = [f, '6'])) ∧
  (4 < parts.length → parts.getD 4 [] ≠ [] → allDigits (parts.getD 4 []) = true) ∧
  (5 < parts.length → parts.getD 5 [] ≠ [] → allDigits (parts.getD 5 []) = true)

/-- Claim C6 (amended): `validateFEN` returns true exactly on the
strings described by `amendedWellFormedFEN`. -/
theorem C6_validateFEN_characterization (fen : List Char) :
    validateFEN fen = true ↔ amendedWellFormedFEN fen := by
  unfold amendedWellFormedFEN
  simp only [validateFEN]
  by_cases h1 : fen = []
  · rw [if_pos h1]
    refine iff_of_false (by simp) ?_
    rintro ⟨hc, -⟩
    exact hc h1
  rw [if_neg h1]
  by_cases h2 : (splitChar ' ' fen).length < 4
  · rw [if_pos h2]
    refine iff_of_false (by simp) ?_
    rintro ⟨-, hc, -⟩
    omega
  rw [if_neg h2]
  by_cases h3 : (splitChar '/' ((splitChar ' ' fen).getD 0 [])).length ≠ 8
  · rw [if_pos h3]
    refine iff_of_false (by simp) ?_
    rintro ⟨-, -, hc, -⟩
    exact h3 hc
  rw [if_neg h3]
  by_cases h4 : ¬ ((splitChar '/' ((splitChar ' ' fen).getD 0 [])).all fun row =>
      decide (rowCountGo row 0 = some 8)) = true
  · rw [if_pos h4]
    refine iff_of_false (by simp) ?_
    rintro ⟨-, -, -, hc, -⟩
    apply h4
    rw [List.all_eq_true]
    intro row hrow
    exact decide_eq_true ((rowOK_iff row).mpr (hc row hrow))
  rw [if_neg h4]
  by_cases h5 : ¬ ((splitChar ' ' fen).getD 1 [] = ['w'] ∨ (splitChar ' ' fen).getD 1 [] = ['b'])
  · rw [if_pos h5]
    refine iff_of_false (by simp) ?_
    rintro ⟨-, -, -, -, hc, -⟩
    exact h5 hc
  rw [if_neg h5]
  by_cases h6 : ¬ castleRegexOK ((splitChar ' ' fen).getD 2 []) = true
  · rw [if_pos h6]
    refine iff_of_false (by simp) ?_
    rintro ⟨-, -, -, -, -, hc, -⟩
    exact h6 ((castleRegexOK_iff _).mpr hc)
  rw [if_neg h6]
  by_cases h7 : ¬ epRegexOK ((splitChar ' ' fen).getD 3 []) = true
  · rw [if_pos h7]
    refine iff_of_false (by simp) ?_
    rintro ⟨-, -, -, -, -, -, hc, -⟩
    exact h7 ((epRegexOK_iff _).mpr hc)
  rw [if_neg h7]
  by_cases h8 : (splitChar ' ' fen).length > 4 ∧ (splitChar ' ' fen).getD 4 [] ≠ [] ∧
      ¬ allDigits ((splitChar ' ' fen).getD 4 []) = true
  · rw [if_pos h8]
    refine iff_of_false (by simp) ?_
    rintro ⟨-, -, -, -, -, -, -, hc, -⟩
    exact (h8.2.2 (hc h8.1 h8.2.1)).elim
  rw [if_neg h8]
  by_cases h9 : (splitChar ' ' fen).length > 5 ∧ (splitChar ' ' fen).getD 5 [] ≠ [] ∧
      ¬ allDigits ((splitChar ' ' fen).getD 5 []) = true
  · rw [if_pos h9]
    refine iff_of_false (by simp) ?_
    rintro ⟨-, -, -, -, -, -, -, -, hc⟩
    exact (h9.2.2 (hc h9.1 h9.2.1)).elim
  rw [if_neg h9]
  apply iff_of_true rfl
  have h4' := of_not_not h4
  rw [List.all_eq_true] at h4'
  refine ⟨h1, by omega, by omega, ?_, of_not_not h5, (castleRegexOK_iff _).mp (of_not_not h6),
    (epRegexOK_iff _).mp (of_not_not h7), ?_, ?_⟩
  · intro row hrow
    exact (rowOK_iff row).mp (of_decide_eq_true (h4' row hrow))
  · intro hl hne
    by_contra hcontra
    exact h8 ⟨hl, hne, hcontra⟩
  · intro hl hne
    by_contra hcontra
    exact h9 ⟨hl, hne, hcontra⟩

theorem opposite_ne (c : Color) : Color.opposite c ≠ c := by
  cases c <;> decide

theorem ownedColor (c : Char) (p : Color) (h : isPieceOwnedByPlayer c p = true) :
    pieceColor c = p := by
  cases p with
  | white => simp only [isPieceOwnedByPlayer] at h; simp [pieceColor, h]
  | black =>
      simp only [isPieceOwnedByPlayer] at h
      have hw : isWhitePiece c = false := by
        simp only [isBlackPiece, blackPieceChars, List.mem_cons, List.not_mem_nil, or_false,
          decide_eq_true_eq] at h
        rcases h with h|h|h|h|h|h <;> subst h <;> decide
      simp [pieceColor, hw]

theorem isLegalFuel_notTurn (n : Nat) (s : GameState) (fr tc : Coord) (c : Char)
    (pc : Option Char) (h : pieceColor c ≠ s.currentPlayer) :
    (isLegalFuel n s fr tc (some c) pc).1.ok = false := by
  cases n with
  | zero => rfl
  | succ n =>
      simp only [isLegalFuel]
      have hkc : ∀ att, ∃ r, kindCheckCore att s fr tc (some c) pc = Except.error r := by
        intro att
        unfold kindCheckCore
        by_cases h1 : fr.rank = tc.rank ∧ fr.file = tc.file
        · exact ⟨"Same square", by simp only [if_pos h1]⟩
        by_cases h2 : (match boardGet s.board tc.rank tc.file with
            | some t => isSameColor c t
            | none => false) = true
        · exact ⟨"Own piece on target", by simp only [if_neg h1, if_pos h2]⟩
        exact ⟨"Not turn", by simp only [if_neg h1, if_neg h2, if_pos h]⟩
      obtain ⟨r, hr⟩ := hkc (isSquareAttackedCore (isLegalFuel n))
      simp only [isLegalStep]
      rw [hr]

theorem genPseudoCore_empty (n : Nat) (s : GameState) (p : Color) (opts : GenOpts)
    (h : p ≠ s.currentPlayer) : genPseudoCore (isLegalFuel n) s p opts = [] := by
  unfold genPseudoCore
  rw [List.flatMap_eq_nil_iff]
  intro rank _
  rw [List.flatMap_eq_nil_iff]
  intro file _
  cases hb : boardGet s.board (rank : Int) (file : Int) with
  | none => rfl
  | some piece =>
      by_cases howned : isPieceOwnedByPlayer piece p = true
      · simp only [if_pos howned]
        rw [List.flatMap_eq_nil_iff]
        intro toRank _
        rw [List.flatMap_eq_nil_iff]
        intro toFile _
        have hcol : pieceColor piece ≠ s.currentPlayer := by
          rw [ownedColor piece p howned]
          exact h
        have hok := isLegalFuel_notTurn n s ⟨(rank : Int), (file : Int)⟩
          ⟨(toRank : Int), (toFile : Int)⟩ piece none hcol
        simp only [hok, Bool.false_eq_true, if_false]
      · simp only [if_neg howned]

theorem isSquareAttackedCore_false (n : Nat) (s : GameState) (sq : Coord) (c : Color)
    (h : Color.opposite c ≠ s.currentPlayer) :
    isSquareAttackedCore (isLegalFuel n) s sq c = false := by
  simp only [isSquareAttackedCore]
  rw [genPseudoCore_empty n s _ _ h]
  rfl

theorem isKingInCheckCore_false (n : Nat) (s : GameState) (c : Color)
    (h : c = s.currentPlayer) :
    isKingInCheckCore (isLegalFuel n) s c = false := by
  simp only [isKingInCheckCore]
  split
  · rfl
  · exact isSquareAttackedCore_false n s _ c (by rw [h]; exact opposite_ne _)

theorem kingKindCheck_att_irrel (att att2 : GameState → Coord → Color → Bool)
    (s : GameState) (fr tc : Coord) (color : Color) (dr df : Int)
    (heq : ∀ sq, att s sq color = att2 s sq color) :
    kingKindCheck att s fr tc color dr df = kingKindCheck att2 s fr tc color dr df := by
  unfold kingKindCheck
  simp only [heq]

theorem kindCheckCore_att_irrel (att att2 : GameState → Coord → Color → Bool)
    (s : GameState) (fr tc : Coord) (piece : Cell) (pc : Option Char)
    (heq : ∀ sq, att s sq s.currentPlayer = att2 s sq s.currentPlayer) :
    kindCheckCore att s fr tc piece pc = kindCheckCore att2 s fr tc piece pc := by
  unfold kindCheckCore
  cases piece with
  | none => rfl
  | some c =>
      by_cases h1 : fr.rank = tc.rank ∧ fr.file = tc.file
      · simp only [if_pos h1]
      simp only [if_neg h1]
      by_cases h2 : (match boardGet s.board tc.rank tc.file with
          | some t => isSameColor c t
          | none => false) = true
      · simp only [if_pos h2]
      simp only [if_neg h2]
      by_cases h3 : pieceColor c ≠ s.currentPlayer
      · simp only [if_pos h3]
      simp only [if_neg h3]
      have hcol : pieceColor c = s.currentPlayer := of_not_not h3
      have heq2 : ∀ sq, att s sq (pieceColor c) = att2 s sq (pieceColor c) := by
        intro sq
        rw [hcol]
        exact heq sq
      simp only [kingKindCheck_att_irrel att att2 s fr tc (pieceColor c)
        (tc.rank - fr.rank) (tc.file - fr.file) heq2]

theorem apply_preserves_currentPlayer (s : GameState) (mv : MoveRec) :
    (applyMoveToState s mv).currentPlayer = s.currentPlayer := by
  cases hp : mv.piece <;> simp [applyMoveToState, hp]

theorem kindCheckCore_ok_turn (att : GameState → Coord → Color → Bool)
    (s : GameState) (fr tc : Coord) (piece : Cell) (pc : Option Char)
    (x : Bool × Bool × Cell) (h : kindCheckCore att s fr tc piece pc = Except.ok x) :
    pieceColor (piece.getD ' ') = s.currentPlayer := by
  unfold kindCheckCore at h
  cases piece with
  | none => cases h
  | some c =>
      simp only [Option.getD_some]
      by_cases h1 : fr.rank = tc.rank ∧ fr.file = tc.file
      · simp only [if_pos h1] at h
        exact Except.noConfusion h
      simp only [if_neg h1] at h
      by_cases h2 : (match boardGet s.board tc.rank tc.file with
          | some t => isSameColor c t
          | none => false) = true
      · simp only [if_pos h2] at h
        exact Except.noConfusion h
      simp only [if_neg h2] at h
      by_cases h3 : pieceColor c ≠ s.currentPlayer
      · simp only [if_pos h3] at h
        exact Except.noConfusion h
      exact of_not_not h3

/-- The legality checker computes the same result at every positive
fuel: every nested attack or check query issued during a call concerns
the side to move, whose opponent is never the current player, so the
nested move generations are empty regardless of the remaining fuel. -/
theorem isLegalFuel_stable (n : Nat) : isLegalFuel (n + 1) = isLegalFuel 1 := by
  funext s fr tc piece pc
  show isLegalStep (isSquareAttackedCore (isLegalFuel n)) (isKingInCheckCore (isLegalFuel n))
      s fr tc piece pc =
    isLegalStep (isSquareAttackedCore (isLegalFuel 0)) (isKingInCheckCore (isLegalFuel 0))
      s fr tc piece pc
  have heq : ∀ sq, isSquareAttackedCore (isLegalFuel n) s sq s.currentPlayer =
      isSquareAttackedCore (isLegalFuel 0) s sq s.currentPlayer := fun sq => by
    rw [isSquareAttackedCore_false n s sq _ (opposite_ne s.currentPlayer),
      isSquareAttackedCore_false 0 s sq _ (opposite_ne s.currentPlayer)]
  simp only [isLegalStep]
  rw [kindCheckCore_att_irrel _ _ s fr tc piece pc heq]
  cases hk : kindCheckCore (isSquareAttackedCore (isLegalFuel 0)) s fr tc piece pc with
  | error r => rfl
  | ok x =>
      obtain ⟨isEP, isCast, promo⟩ := x
      have hcol := kindCheckCore_ok_turn _ s fr tc piece pc _ hk
      have key : ∀ m : Nat, isKingInCheckCore (isLegalFuel m)
          (applyMoveToState s
            { fromSq := fr, toSq := tc, piece := piece,
              capturedPiece := boardGet s.board tc.rank tc.file, promotion := promo,
              isEnPassant := isEP, isCastling := isCast })
          (pieceColor (piece.getD ' ')) = false := fun m =>
        isKingInCheckCore_false m _ _ (by rw [apply_preserves_currentPlayer]; exact hcol)
      simp only [key]
